import Mathlib

/-!
# Page replacement engine of `virtual.c`

A shallow embedding of the three access processors
(`process_page_access_fifo`, `process_page_access_lru`, `process_page_access_lfu`)
and of the three simulation drivers (`count_page_faults_fifo`,
`count_page_faults_lru`, `count_page_faults_lfu`), followed by the properties
established about them.

Conventions of the embedding.

* A C `int` is a Lean `Int`; every `++` of the source goes through `wrapInt`,
  the two's complement wrap-around to 32 bits.
* A C array is a `List`; an index is an `Int`.  Reading or writing outside the
  list is a `Fault` that records the offending index, so that the use of the
  sentinel index `-1` is visible in the result.
* `int *table_cnt` and `int *frame_cnt` are fields of the record `Mem` that a
  processor receives and returns, next to the two arrays.
-/

namespace VirtualMemory

/-! ## Machine integers -/

/-- Largest value of a C `int` (`INT_MAX` of `limits.h`). -/
def INT_MAX : Int := 2147483647

/-- Smallest value of a C `int` (`INT_MIN` of `limits.h`). -/
def INT_MIN : Int := -2147483648

/-- Two's complement reduction of an integer to the range of a 32 bit `int`. -/
def wrapInt (x : Int) : Int := (x + 2147483648) % 4294967296 - 2147483648

/-- The value is representable in a C `int`. -/
def isInt32 (x : Int) : Prop := INT_MIN ≤ x ∧ x ≤ INT_MAX

instance (x : Int) : Decidable (isInt32 x) := by
  unfold isInt32; exact inferInstance

/-! ## Data model -/

/-- Modelled from the spec: `struct PTE` is declared in `PCB.h`, which is not
among the sources.  The five fields are the ones `virtual.c` reads and writes;
each is taken to be an `int`, `is_valid` being true when it is not zero. -/
structure PTE where
  is_valid : Int
  frame_number : Int
  arrival_timestamp : Int
  last_access_timestamp : Int
  reference_count : Int
deriving DecidableEq, Repr

/-- An access outside an array, or a copy that does not fit the local array. -/
inductive Fault where
  | tableIndex (i : Int)
  | poolIndex (i : Int)
  | referenceIndex (i : Int)
  | tableCapacity
  | poolCapacity
deriving DecidableEq, Repr

/-- The memory an access processor works on: both arrays and both counters
that it receives through pointers. -/
structure Mem where
  page_table : List PTE
  table_cnt : Int
  frame_pool : List Int
  frame_cnt : Int
deriving DecidableEq, Repr

/-- Element `i` of an array, when `i` is inside it. -/
def index {α : Type} (xs : List α) (i : Int) : Option α :=
  if 0 ≤ i then xs[i.toNat]? else none

/-- Read of `page_table[i]`. -/
def readPTE (page_table : List PTE) (i : Int) : Except Fault PTE :=
  match index page_table i with
  | some e => .ok e
  | none => .error (.tableIndex i)

/-- Read of `frame_pool[i]`. -/
def readFrame (frame_pool : List Int) (i : Int) : Except Fault Int :=
  match index frame_pool i with
  | some f => .ok f
  | none => .error (.poolIndex i)

/-- Read of `reference_string[i]`. -/
def readRef (reference_string : List Int) (i : Int) : Except Fault Int :=
  match index reference_string i with
  | some p => .ok p
  | none => .error (.referenceIndex i)

/-- Store into `page_table[i]`; every store of the source follows a read of the
same element, so the index is inside the array when the store is reached. -/
def writePTE (page_table : List PTE) (i : Int) (e : PTE) : List PTE :=
  if 0 ≤ i then page_table.set i.toNat e else page_table

/-- A `for (int i = 0; i < n; i++)` loop whose body maps the loop state. -/
def forLoop {σ : Type} (n : Int) (body : Nat → σ → Except Fault σ) (init : σ) :
    Except Fault σ :=
  (List.range n.toNat).foldlM (fun s i => body i s) init

/-- The loop state after the first `n` iterations of a `for` loop. -/
def iterate {σ : Type} (n : Nat) (body : Nat → σ → Except Fault σ) (init : σ) :
    Except Fault σ :=
  (List.range n).foldlM (fun s i => body i s) init

/-- The entry is resident (`is_valid` is true). -/
def resident (e : PTE) : Prop := e.is_valid ≠ 0

instance (e : PTE) : Decidable (resident e) := by
  unfold resident; exact inferInstance

/-! ## Victim scans -/

/-- Body of the scan of `process_page_access_fifo` (lines 38-43): the state is
`(oldest_timestamp, oldest_page)`. -/
def fifo_scan_body (page_table : List PTE) (i : Nat) (s : Int × Int) :
    Except Fault (Int × Int) := do
  let e ← readPTE page_table i
  if e.is_valid ≠ 0 ∧ e.arrival_timestamp < s.1 then
    pure (e.arrival_timestamp, (i : Int))
  else
    pure s

/-- Lines 35-43 of `process_page_access_fifo`: the value of `oldest_page` after
the loop. -/
def fifo_scan (page_table : List PTE) (table_cnt current_timestamp : Int) :
    Except Fault Int := do
  let s ← forLoop table_cnt (fifo_scan_body page_table) (current_timestamp, -1)
  pure s.2

/-- Body of the scan of `process_page_access_lru` (lines 151-156): the state is
`(least_recent_timestamp, least_recent_page)`. -/
def lru_scan_body (page_table : List PTE) (i : Nat) (s : Int × Int) :
    Except Fault (Int × Int) := do
  let e ← readPTE page_table i
  if e.is_valid ≠ 0 ∧ e.last_access_timestamp < s.1 then
    pure (e.last_access_timestamp, (i : Int))
  else
    pure s

/-- Lines 148-156 of `process_page_access_lru`: the value of
`least_recent_page` after the loop. -/
def lru_scan (page_table : List PTE) (table_cnt current_timestamp : Int) :
    Except Fault Int := do
  let s ← forLoop table_cnt (lru_scan_body page_table) (current_timestamp, -1)
  pure s.2

/-- Body of the scan of `process_page_access_lfu` (lines 262-273): the state is
`(least_frequent_count, least_frequent_page, oldest_timestamp)`. -/
def lfu_scan_body (page_table : List PTE) (i : Nat) (s : Int × Int × Int) :
    Except Fault (Int × Int × Int) := do
  let e ← readPTE page_table i
  if e.is_valid ≠ 0 then
    if e.reference_count < s.1 ∨
        (e.reference_count = s.1 ∧ e.arrival_timestamp < s.2.2) then
      pure (e.reference_count, (i : Int), e.arrival_timestamp)
    else
      pure s
  else
    pure s

/-- Lines 258-273 of `process_page_access_lfu`: the value of
`least_frequent_page` after the loop. -/
def lfu_scan (page_table : List PTE) (table_cnt current_timestamp : Int) :
    Except Fault Int := do
  let s ← forLoop table_cnt (lfu_scan_body page_table) (INT_MAX, -1, current_timestamp)
  pure s.2.1

/-! ## Access processors -/

/-- The entry written for a page that has just been given `frame`
(lines 27-31, 54-58 and their copies). -/
def freshEntry (frame current_timestamp : Int) : PTE :=
  { is_valid := 1, frame_number := frame, arrival_timestamp := current_timestamp,
    last_access_timestamp := current_timestamp, reference_count := 1 }

/-- The entry written over an evicted page (lines 48-52 and their copies). -/
def evictedEntry : PTE :=
  { is_valid := 0, frame_number := -1, arrival_timestamp := -1,
    last_access_timestamp := -1, reference_count := -1 }

/-- The entry after the two updates of a hit (lines 17-18 and their copies). -/
def hitEntry (e : PTE) (current_timestamp : Int) : PTE :=
  { e with last_access_timestamp := current_timestamp,
           reference_count := wrapInt (e.reference_count + 1) }

/-- The body shared, statement for statement, by the three access processors of
`virtual.c`; they differ in the scan that chooses the victim only. -/
def process_page_access (scan : List PTE → Int → Int → Except Fault Int)
    (m : Mem) (page_number current_timestamp : Int) : Except Fault (Int × Mem) := do
  let e ← readPTE m.page_table page_number
  if e.is_valid ≠ 0 then
    let e' := hitEntry e current_timestamp
    pure (e'.frame_number, { m with page_table := writePTE m.page_table page_number e' })
  else if m.frame_cnt > 0 then
    let cnt := m.frame_cnt - 1
    let frame ← readFrame m.frame_pool cnt
    pure (frame, { m with frame_cnt := cnt,
                          page_table := writePTE m.page_table page_number
                            (freshEntry frame current_timestamp) })
  else
    let victim ← scan m.page_table m.table_cnt current_timestamp
    let v ← readPTE m.page_table victim
    let frame := v.frame_number
    let table := writePTE m.page_table victim evictedEntry
    pure (frame, { m with page_table := writePTE table page_number
                                          (freshEntry frame current_timestamp) })

/-- Lines 12-61: `process_page_access_fifo`. -/
def process_page_access_fifo (m : Mem) (page_number current_timestamp : Int) :
    Except Fault (Int × Mem) :=
  process_page_access fifo_scan m page_number current_timestamp

/-- Lines 125-175: `process_page_access_lru`. -/
def process_page_access_lru (m : Mem) (page_number current_timestamp : Int) :
    Except Fault (Int × Mem) :=
  process_page_access lru_scan m page_number current_timestamp

/-- Lines 235-292: `process_page_access_lfu`. -/
def process_page_access_lfu (m : Mem) (page_number current_timestamp : Int) :
    Except Fault (Int × Mem) :=
  process_page_access lfu_scan m page_number current_timestamp

/-! ## Simulation drivers -/

/-- The variables of a simulation driver: the caller's two arrays, the local
copies, and the local scalars.  The local arrays hold the entries written so
far; what lies beyond is uninitialised storage and reading it is a `Fault`. -/
structure Sim where
  page_table : List PTE
  frame_pool : List Int
  local_page_table : List PTE
  local_frame_pool : List Int
  local_frame_cnt : Int
  table_cnt : Int
  frames_in_use : Int
  page_faults : Int
  current_timestamp : Int
deriving DecidableEq, Repr

/-- Lines 78-81 (and 192-195): copy entry `i` into the local table of capacity
`TABLEMAX` and count it when it is resident. -/
def copy_table_body (TABLEMAX : Nat) (i : Nat) (s : Sim) : Except Fault Sim := do
  let e ← readPTE s.page_table i
  if TABLEMAX ≤ i then
    throw Fault.tableCapacity
  else
    let s1 := { s with local_page_table := s.local_page_table ++ [e] }
    if e.is_valid ≠ 0 then
      pure { s1 with frames_in_use := wrapInt (s1.frames_in_use + 1) }
    else
      pure s1

/-- Line 89 (and 202, 312): copy frame `i` into the local pool of capacity
`POOLMAX`. -/
def copy_pool_body (POOLMAX : Nat) (i : Nat) (s : Sim) : Except Fault Sim := do
  let f ← readFrame s.frame_pool i
  if POOLMAX ≤ i then
    throw Fault.poolCapacity
  else
    pure { s with local_frame_pool := s.local_frame_pool ++ [f] }

/-- A call `process_page_access_*(local_page_table, &table_cnt, page_number,
local_frame_pool, &local_frame_cnt, current_timestamp)`; the returned frame is
discarded. -/
def call_on_local (proc : Mem → Int → Int → Except Fault (Int × Mem))
    (s : Sim) (page_number : Int) : Except Fault Sim := do
  let r ← proc { page_table := s.local_page_table, table_cnt := s.table_cnt,
                 frame_pool := s.local_frame_pool, frame_cnt := s.local_frame_cnt }
              page_number s.current_timestamp
  pure { s with local_page_table := r.2.page_table, table_cnt := r.2.table_cnt,
                local_frame_pool := r.2.frame_pool, local_frame_cnt := r.2.frame_cnt }

/-- A call `process_page_access_*(page_table, &table_cnt, page_number,
local_frame_pool, &local_frame_cnt, current_timestamp)` on the caller's table;
the returned frame is discarded. -/
def call_on_caller (proc : Mem → Int → Int → Except Fault (Int × Mem))
    (s : Sim) (page_number : Int) : Except Fault Sim := do
  let r ← proc { page_table := s.page_table, table_cnt := s.table_cnt,
                 frame_pool := s.local_frame_pool, frame_cnt := s.local_frame_cnt }
              page_number s.current_timestamp
  pure { s with page_table := r.2.page_table, table_cnt := r.2.table_cnt,
                local_frame_pool := r.2.frame_pool, local_frame_cnt := r.2.frame_cnt }

/-- Lines 95-112: one iteration of the reference loop of
`count_page_faults_fifo`. -/
def fifo_loop_body (reference_string : List Int) (frame_cnt : Int) (i : Nat) (s : Sim) :
    Except Fault Sim := do
  let page_number ← readRef reference_string i
  let e ← readPTE s.local_page_table page_number
  let s1 ←
    (if e.is_valid = 0 then
      (let s0 := { s with page_faults := wrapInt (s.page_faults + 1) }
       if s0.frames_in_use < frame_cnt then
         Except.ok { s0 with frames_in_use := wrapInt (s0.frames_in_use + 1) }
       else
         call_on_local process_page_access_fifo s0 page_number)
    else
      call_on_local process_page_access_fifo s page_number)
  pure { s1 with current_timestamp := wrapInt (s1.current_timestamp + 1) }

/-- Lines 207-221: one iteration of the reference loop of
`count_page_faults_lru`. -/
def lru_loop_body (reference_string : List Int) (frame_cnt : Int) (i : Nat) (s : Sim) :
    Except Fault Sim := do
  let page_number ← readRef reference_string i
  let e ← readPTE s.local_page_table page_number
  let s1 :=
    if e.is_valid = 0 then
      let s0 := { s with page_faults := wrapInt (s.page_faults + 1) }
      if s0.frames_in_use < frame_cnt then
        { s0 with frames_in_use := wrapInt (s0.frames_in_use + 1) }
      else
        s0
    else
      s
  let s2 ← call_on_local process_page_access_lru s1 page_number
  pure { s2 with current_timestamp := wrapInt (s2.current_timestamp + 1) }

/-- Lines 317-328: one iteration of the reference loop of
`count_page_faults_lfu`. -/
def lfu_loop_body (reference_string : List Int) (i : Nat) (s : Sim) :
    Except Fault Sim := do
  let page_number ← readRef reference_string i
  let e ← readPTE s.page_table page_number
  let s1 :=
    if e.is_valid = 0 then
      { s with page_faults := wrapInt (s.page_faults + 1) }
    else
      s
  let s2 ← call_on_caller process_page_access_lfu s1 page_number
  pure { s2 with current_timestamp := wrapInt (s2.current_timestamp + 1) }

/-- The driver's variables at entry: `page_faults = 0`, `current_timestamp = 1`,
`frames_in_use = 0`, `local_frame_cnt = frame_cnt`, nothing copied yet. -/
def initSim (page_table : List PTE) (table_cnt : Int) (frame_pool : List Int)
    (frame_cnt : Int) : Sim :=
  { page_table := page_table, frame_pool := frame_pool,
    local_page_table := [], local_frame_pool := [], local_frame_cnt := frame_cnt,
    table_cnt := table_cnt, frames_in_use := 0, page_faults := 0,
    current_timestamp := 1 }

/-- Lines 71-117: `count_page_faults_fifo`.  The result is the returned count
together with the caller's table and pool as they are when the call returns. -/
def count_page_faults_fifo (TABLEMAX POOLMAX : Nat) (page_table : List PTE)
    (table_cnt : Int) (reference_string : List Int) (reference_cnt : Int)
    (frame_pool : List Int) (frame_cnt : Int) :
    Except Fault (Int × List PTE × List Int) := do
  let s0 := initSim page_table table_cnt frame_pool frame_cnt
  let s1 ← forLoop table_cnt (copy_table_body TABLEMAX) s0
  let s2 ← forLoop frame_cnt (copy_pool_body POOLMAX) s1
  let s3 ← forLoop reference_cnt (fifo_loop_body reference_string frame_cnt) s2
  pure (s3.page_faults, s3.page_table, s3.frame_pool)

/-- Lines 184-226: `count_page_faults_lru`.  The result is the returned count
together with the caller's table and pool as they are when the call returns. -/
def count_page_faults_lru (TABLEMAX POOLMAX : Nat) (page_table : List PTE)
    (table_cnt : Int) (reference_string : List Int) (reference_cnt : Int)
    (frame_pool : List Int) (frame_cnt : Int) :
    Except Fault (Int × List PTE × List Int) := do
  let s0 := initSim page_table table_cnt frame_pool frame_cnt
  let s1 ← forLoop table_cnt (copy_table_body TABLEMAX) s0
  let s2 ← forLoop frame_cnt (copy_pool_body POOLMAX) s1
  let s3 ← forLoop reference_cnt (lru_loop_body reference_string frame_cnt) s2
  pure (s3.page_faults, s3.page_table, s3.frame_pool)

/-- Lines 304-333: `count_page_faults_lfu`.  The result is the returned count
together with the caller's table and pool as they are when the call returns. -/
def count_page_faults_lfu (POOLMAX : Nat) (page_table : List PTE)
    (table_cnt : Int) (reference_string : List Int) (reference_cnt : Int)
    (frame_pool : List Int) (frame_cnt : Int) :
    Except Fault (Int × List PTE × List Int) := do
  let s0 := initSim page_table table_cnt frame_pool frame_cnt
  let s2 ← forLoop frame_cnt (copy_pool_body POOLMAX) s0
  let s3 ← forLoop reference_cnt (lfu_loop_body reference_string) s2
  pure (s3.page_faults, s3.page_table, s3.frame_pool)

/-! ## Notions used in the statements -/

/-- A scan that keeps the first resident entry whose key is least and below the
initial threshold; the state is `(threshold, page)`. -/
def keyed_scan_body {K : Type} [LinearOrder K] (key : PTE → K) (page_table : List PTE)
    (i : Nat) (s : K × Int) : Except Fault (K × Int) := do
  let e ← readPTE page_table i
  if e.is_valid ≠ 0 ∧ key e < s.1 then
    pure (key e, (i : Int))
  else
    pure s

/-- What a keyed scan over the first `n` entries has established when it ends
in state `(k, p)` after starting from `(k0, -1)`: either nothing was selected
and no resident entry lies below the threshold, or `p` is the first resident
entry of least key. -/
def ScanResult {K : Type} [LinearOrder K] (key : PTE → K) (t : List PTE) (n : Nat)
    (k0 k : K) (p : Int) : Prop :=
  (p = -1 ∧ k = k0 ∧ ∀ i e, i < n → t[i]? = some e → resident e → k0 ≤ key e) ∨
  (∃ (j : Nat) (e : PTE), p = (j : Int) ∧ j < n ∧ t[j]? = some e ∧ resident e ∧ key e = k ∧ k < k0 ∧
    (∀ i e', i < n → t[i]? = some e' → resident e' → k ≤ key e') ∧
    (∀ i e', i < j → t[i]? = some e' → resident e' → k < key e'))

/-- The key by which `process_page_access_lfu` orders entries: reference count
first, arrival time second. -/
def lfuKey (e : PTE) : Lex (Int × Int) := toLex (e.reference_count, e.arrival_timestamp)

/-- The state of the LFU scan seen as a keyed scan state. -/
def lfuState (s : Int × Int × Int) : Lex (Int × Int) × Int := (toLex (s.1, s.2.2), s.2.1)

/-- A scan is sound when a victim other than the sentinel `-1` is the index of a
resident entry among the scanned ones. -/
def ScanSound (scan : List PTE → Int → Int → Except Fault Int) : Prop :=
  ∀ t n ts v, scan t n ts = Except.ok v → v ≠ -1 →
    ∃ (j : Nat) (e : PTE), v = (j : Int) ∧ j < n.toNat ∧ t[j]? = some e ∧ resident e

/-- Outcome of a hit on the resident entry `e` of page `p` at time `ts`: the
call returns the frame of `e`; the entry keeps `is_valid`, `frame_number` and
`arrival_timestamp`, has `last_access_timestamp = ts`, and its
`reference_count` is one more than before. -/
def HitPost (e : PTE) (p ts : Int) (r : Except Fault (Int × Mem)) : Prop :=
  ∃ m' e', r = Except.ok (e.frame_number, m') ∧ index m'.page_table p = some e' ∧
    e'.is_valid = e.is_valid ∧ e'.frame_number = e.frame_number ∧
    e'.arrival_timestamp = e.arrival_timestamp ∧ e'.last_access_timestamp = ts ∧
    e'.reference_count = e.reference_count + 1

/-- Outcome of a fault served from the pool with frame `f`: the call returns
`f`, the pool count is one less, and the entry of page `p` is resident with
frame `f`, both timestamps `ts` and reference count 1. -/
def AllocPost (m : Mem) (p ts f : Int) (r : Except Fault (Int × Mem)) : Prop :=
  ∃ m' e', r = Except.ok (f, m') ∧ m'.frame_cnt = m.frame_cnt - 1 ∧
    index m'.page_table p = some e' ∧ resident e' ∧ e'.frame_number = f ∧
    e'.arrival_timestamp = ts ∧ e'.last_access_timestamp = ts ∧ e'.reference_count = 1

/-- Outcome of a fault served by evicting the entry at index `v`: that entry
ends not resident with its four other fields `-1`, the entry of page `p` is
resident on the victim's former frame with both timestamps `ts` and reference
count 1, and the call returns the victim's former frame. -/
def EvictPost (m : Mem) (p ts v : Int) (r : Except Fault (Int × Mem)) : Prop :=
  ∃ ve m' ve' e', index m.page_table v = some ve ∧ r = Except.ok (ve.frame_number, m') ∧
    index m'.page_table v = some ve' ∧ ¬ resident ve' ∧ ve'.frame_number = -1 ∧
    ve'.arrival_timestamp = -1 ∧ ve'.last_access_timestamp = -1 ∧
    ve'.reference_count = -1 ∧
    index m'.page_table p = some e' ∧ resident e' ∧ e'.frame_number = ve.frame_number ∧
    e'.arrival_timestamp = ts ∧ e'.last_access_timestamp = ts ∧ e'.reference_count = 1

/-- A resident entry with the largest reference count an `int` can hold. -/
def saturatedEntry : PTE :=
  { is_valid := 1, frame_number := 7, arrival_timestamp := 1,
    last_access_timestamp := 2, reference_count := 2147483647 }

/-- A table whose only page is `saturatedEntry`. -/
def saturatedMem : Mem :=
  { page_table := [saturatedEntry], table_cnt := 1, frame_pool := [], frame_cnt := 0 }

/-- A resident entry: frame 4, arrived at 2, last used at 3, used twice. -/
def sampleEntry0 : PTE :=
  { is_valid := 1, frame_number := 4, arrival_timestamp := 2,
    last_access_timestamp := 3, reference_count := 2 }

/-- A resident entry: frame 9, arrived at 1, last used at 4, used once. -/
def sampleEntry1 : PTE :=
  { is_valid := 1, frame_number := 9, arrival_timestamp := 1,
    last_access_timestamp := 4, reference_count := 1 }

/-- Three pages, the first two resident, page 2 absent. -/
def sampleTable : List PTE := [sampleEntry0, sampleEntry1, evictedEntry]

/-- The sample table with one free frame left in the pool. -/
def sampleMemFree : Mem :=
  { page_table := sampleTable, table_cnt := 3, frame_pool := [5, 6], frame_cnt := 1 }

/-- The sample table with an empty pool. -/
def sampleMemFull : Mem :=
  { page_table := sampleTable, table_cnt := 3, frame_pool := [5, 6], frame_cnt := 0 }

/-- Entry `v` is the victim a least-key policy must choose among the first `n`
entries of `t`: it is resident, no resident entry has a smaller key, and every
resident entry before it has a strictly larger key. -/
def FirstMinVictim {K : Type} [LinearOrder K] (key : PTE → K) (t : List PTE) (n v : Nat) :
    Prop :=
  v < n ∧ ∃ ve, t[v]? = some ve ∧ resident ve ∧
    (∀ i e, i < n → t[i]? = some e → resident e → key ve ≤ key e) ∧
    (∀ i e, i < v → t[i]? = some e → resident e → key ve < key e)

/-- Entry `v` is the victim LFU must choose among the first `n` entries of `t`:
it is resident, its reference count is least among the resident entries, its
arrival time is least among the resident entries of that count, and of two
resident entries of equal count it is never the one that arrived later. -/
def LfuVictim (t : List PTE) (n v : Nat) : Prop :=
  v < n ∧ ∃ ve, t[v]? = some ve ∧ resident ve ∧
    (∀ i e, i < n → t[i]? = some e → resident e →
      ve.reference_count ≤ e.reference_count) ∧
    (∀ i e, i < n → t[i]? = some e → resident e →
      e.reference_count = ve.reference_count →
      ve.arrival_timestamp ≤ e.arrival_timestamp) ∧
    (∀ i j ei ej, i < n → j < n → t[i]? = some ei → t[j]? = some ej →
      resident ei → resident ej → ei.reference_count = ej.reference_count →
      ei.arrival_timestamp < ej.arrival_timestamp → v ≠ j)

/-- Two resident pages with the same reference count, the later arrival stored
first, and an absent page 2. -/
def tieTable : List PTE :=
  [{ is_valid := 1, frame_number := 4, arrival_timestamp := 6,
     last_access_timestamp := 6, reference_count := 2 },
   { is_valid := 1, frame_number := 9, arrival_timestamp := 3,
     last_access_timestamp := 7, reference_count := 2 },
   evictedEntry]

/-- The tie table with an empty pool. -/
def tieMem : Mem :=
  { page_table := tieTable, table_cnt := 3, frame_pool := [], frame_cnt := 0 }

/-- Number of resident entries among the first `n` entries of the table. -/
def residentCount (t : List PTE) (n : Nat) : Nat :=
  (t.take n).countP (fun e => decide (resident e))

/-- Resident entries among the first `*table_cnt` plus the frames left in the
pool. -/
def frameTotal (m : Mem) : Int :=
  (residentCount m.page_table m.table_cnt.toNat : Int) + m.frame_cnt

/-- A run: the calls `(page_number, current_timestamp)` made one after the other
on the same memory by one access processor. -/
def run (proc : Mem → Int → Int → Except Fault (Int × Mem)) :
    Mem → List (Int × Int) → Except Fault Mem
  | m, [] => Except.ok m
  | m, a :: rest => do
    let r ← proc m a.1 a.2
    run proc r.2 rest

/-- The private copy a driver starts from: the first `table_cnt` entries of the
caller's table and the first `frame_cnt` frames of the caller's pool, with the
two counts. -/
def localCopy (page_table : List PTE) (table_cnt : Int) (frame_pool : List Int)
    (frame_cnt : Int) : Mem :=
  { page_table := page_table.take table_cnt.toNat, table_cnt := table_cnt,
    frame_pool := frame_pool.take frame_cnt.toNat, frame_cnt := frame_cnt }

/-- Reference replay, following the spec's words: the state obtained from `m0`
by applying the access processor to references `0 .. i-1` in order, reference
`k` with timestamp `k + 1`. -/
def replay_state (proc : Mem → Int → Int → Except Fault (Int × Mem)) (m0 : Mem)
    (reference_string : List Int) : Nat → Except Fault Mem
  | 0 => Except.ok m0
  | i + 1 => do
    let m ← replay_state proc m0 reference_string i
    let p ← readRef reference_string i
    let r ← proc m p ((i : Int) + 1)
    pure r.2

/-- Position `i` is a fault of the replay: the page referenced at `i` is not
resident in the replayed state before that reference. -/
def fault_at (proc : Mem → Int → Int → Except Fault (Int × Mem)) (m0 : Mem)
    (reference_string : List Int) (i : Nat) : Bool :=
  match replay_state proc m0 reference_string i, index reference_string i with
  | Except.ok m, some p =>
    match index m.page_table p with
    | some e => decide (e.is_valid = 0)
    | none => false
  | _, _ => false

/-- Number of fault positions among the first `n` references of the replay. -/
def replay_faults (proc : Mem → Int → Int → Except Fault (Int × Mem)) (m0 : Mem)
    (reference_string : List Int) (n : Nat) : Nat :=
  ((List.range n).filter (fault_at proc m0 reference_string)).length

/-- The driver's variables once both copies are made, in terms of the private
copy `m`. -/
def simOf (page_table : List PTE) (frame_pool : List Int) (m : Mem)
    (frames_in_use page_faults current_timestamp : Int) : Sim :=
  { page_table := page_table, frame_pool := frame_pool,
    local_page_table := m.page_table, local_frame_pool := m.frame_pool,
    local_frame_cnt := m.frame_cnt, table_cnt := m.table_cnt,
    frames_in_use := frames_in_use, page_faults := page_faults,
    current_timestamp := current_timestamp }

/-- A table of two pages, neither resident. -/
def emptyTable : List PTE := [evictedEntry, evictedEntry]

/-- A page table of `n` entries, none resident. -/
def absentTable (n : Nat) : List PTE := List.replicate n evictedEntry

/-- The reference string of Scenario A. -/
def beladyRefs : List Int := [1, 2, 3, 4, 1, 2, 5, 1, 2, 3, 4, 5]

/-- A table whose page 0 is resident with timestamps 2 and 3 and whose page 1
is absent. -/
def prepopulatedTable : List PTE := [sampleEntry0, evictedEntry]

/-- The victim at index `v` is not the earliest arrival among the resident
entries of least reference count: some resident entry among the first `n` has a
smaller count, or the same count and an earlier arrival. -/
def NotEarliestOfLeastCount (t : List PTE) (n v : Nat) : Prop :=
  ∃ ve, t[v]? = some ve ∧ ∃ i e, i < n ∧ t[i]? = some e ∧ resident e ∧
    (e.reference_count < ve.reference_count ∨
      (e.reference_count = ve.reference_count ∧
        e.arrival_timestamp < ve.arrival_timestamp))

/-- What a returning call `r` of an access processor with victim scan `scan`
leaves untouched: the pool array and `*table_cnt` always; `*frame_cnt` except
for the decrement of a fault served from the pool; every table entry other than
the page accessed and, on an eviction, the victim. -/
def AccessFrame (scan : List PTE → Int → Int → Except Fault Int) (m : Mem) (p ts : Int)
    (r : Int × Mem) : Prop :=
  r.2.frame_pool = m.frame_pool ∧ r.2.table_cnt = m.table_cnt ∧
  ∃ e, index m.page_table p = some e ∧
    ((resident e ∧ r.2.frame_cnt = m.frame_cnt ∧
        ∀ j, j ≠ p → index r.2.page_table j = index m.page_table j) ∨
     (¬ resident e ∧ 0 < m.frame_cnt ∧ r.2.frame_cnt = m.frame_cnt - 1 ∧
        ∀ j, j ≠ p → index r.2.page_table j = index m.page_table j) ∨
     (¬ resident e ∧ ¬ 0 < m.frame_cnt ∧ r.2.frame_cnt = m.frame_cnt ∧
        ∃ v, scan m.page_table m.table_cnt ts = Except.ok v ∧
          ∀ j, j ≠ p → j ≠ v → index r.2.page_table j = index m.page_table j))

/-- Entry well-formedness: either not resident with the four other fields `-1`,
or resident with a frame that is not negative, `0 ≤ arrival_timestamp ≤
last_access_timestamp` and a reference count of at least 1. -/
def wellFormed (e : PTE) : Prop :=
  (¬ resident e ∧ e.frame_number = -1 ∧ e.arrival_timestamp = -1 ∧
    e.last_access_timestamp = -1 ∧ e.reference_count = -1) ∨
  (resident e ∧ 0 ≤ e.frame_number ∧ 0 ≤ e.arrival_timestamp ∧
    e.arrival_timestamp ≤ e.last_access_timestamp ∧ 1 ≤ e.reference_count)

instance (e : PTE) : Decidable (wellFormed e) := by
  unfold wellFormed; exact inferInstance

/-- Every entry of the table is well-formed. -/
def wellFormedTable (t : List PTE) : Prop :=
  ∀ (j : Nat) (e : PTE), t[j]? = some e → wellFormed e

/-- The three distinctness conditions on the first `n` table entries and the
first `*frame_cnt` pool entries: resident entries hold pairwise distinct frames,
the pool frames are pairwise distinct, and no pool frame is the frame of a
resident entry. -/
def FramesDistinct (n : Nat) (m : Mem) : Prop :=
  (∀ (i j : Nat) (ei ej : PTE), i < n → j < n → m.page_table[i]? = some ei →
    m.page_table[j]? = some ej → resident ei → resident ej →
    ei.frame_number = ej.frame_number → i = j) ∧
  (∀ (a b : Nat) (fa fb : Int), a < m.frame_cnt.toNat → b < m.frame_cnt.toNat →
    m.frame_pool[a]? = some fa → m.frame_pool[b]? = some fb → fa = fb → a = b) ∧
  (∀ (a i : Nat) (fa : Int) (ei : PTE), a < m.frame_cnt.toNat →
    m.frame_pool[a]? = some fa → i < n → m.page_table[i]? = some ei → resident ei →
    fa ≠ ei.frame_number)

/-- The memory the FIFO and LRU drivers hand to their processor: the local
table and pool with the local counts. -/
def memLocal (s : Sim) : Mem :=
  { page_table := s.local_page_table, table_cnt := s.table_cnt,
    frame_pool := s.local_frame_pool, frame_cnt := s.local_frame_cnt }

/-- The memory the LFU driver hands to its processor: the caller's table with
the local pool and the local counts. -/
def memCaller (s : Sim) : Mem :=
  { page_table := s.page_table, table_cnt := s.table_cnt,
    frame_pool := s.local_frame_pool, frame_cnt := s.local_frame_cnt }

/-- The memory `count_page_faults_lfu` starts from: the caller's own table and
a copy of the first `frame_cnt` frames of the caller's pool. -/
def callerStart (page_table : List PTE) (table_cnt : Int) (frame_pool : List Int)
    (frame_cnt : Int) : Mem :=
  { page_table := page_table, table_cnt := table_cnt,
    frame_pool := frame_pool.take frame_cnt.toNat, frame_cnt := frame_cnt }

/-- The variables of `count_page_faults_lfu` once the pool is copied, in terms
of the memory `m` its processor works on. -/
def simOfCaller (frame_pool : List Int) (m : Mem)
    (page_faults current_timestamp : Int) : Sim :=
  { page_table := m.page_table, frame_pool := frame_pool,
    local_page_table := [], local_frame_pool := m.frame_pool,
    local_frame_cnt := m.frame_cnt, table_cnt := m.table_cnt,
    frames_in_use := 0, page_faults := page_faults,
    current_timestamp := current_timestamp }

/-- A loop body that hands every reference to the processor `proc` on the
memory `mem s`, counts the reference as a fault when its page is not resident,
advances the timestamp and leaves the caller's pool alone. -/
def CallSpec (proc : Mem → Int → Int → Except Fault (Int × Mem)) (mem : Sim → Mem)
    (refs : List Int) (body : Nat → Sim → Except Fault Sim) : Prop :=
  ∀ (i : Nat) (s : Sim) (p : Int) (e : PTE) (r : Int × Mem),
    readRef refs i = Except.ok p → index (mem s).page_table p = some e →
    proc (mem s) p s.current_timestamp = Except.ok r →
    ∃ s', body i s = Except.ok s' ∧ mem s' = r.2 ∧
      s'.page_faults = (if e.is_valid = 0 then wrapInt (s.page_faults + 1)
        else s.page_faults) ∧
      s'.current_timestamp = wrapInt (s.current_timestamp + 1) ∧
      s'.frame_pool = s.frame_pool

/-- A scan is complete when, on a table that holds the scanned entries, has a
resident one among them and whose resident entries carry timestamps before `ts`
and reference counts below `INT_MAX`, it selects a victim other than the
sentinel. -/
def ScanComplete (scan : List PTE → Int → Int → Except Fault Int) : Prop :=
  ∀ (t : List PTE) (n ts : Int), n.toNat ≤ t.length →
    (∃ (i : Nat) (e : PTE), i < n.toNat ∧ t[i]? = some e ∧ resident e) →
    (∀ (i : Nat) (e : PTE), i < n.toNat → t[i]? = some e → resident e →
      e.arrival_timestamp < ts ∧ e.last_access_timestamp < ts ∧
        e.reference_count < INT_MAX) →
    ∃ v, scan t n ts = Except.ok v ∧ v ≠ -1

/-- The state of a well-formed run after `i` references, for a process that owns
`F0` frames, a pool array `pool` and a table of `n` pages: the counts and the
pool array are in order, frames are conserved, and every resident page carries
timestamps of at most `i` and a reference count between 1 and `i`. -/
def RunInv (F0 : Int) (pool : List Int) (n : Int) (i : Nat) (m : Mem) : Prop :=
  m.table_cnt = n ∧ n.toNat ≤ m.page_table.length ∧ m.frame_pool = pool ∧
  0 ≤ m.frame_cnt ∧ m.frame_cnt.toNat ≤ pool.length ∧ frameTotal m = F0 ∧
  ∀ (j : Nat) (e : PTE), j < n.toNat → m.page_table[j]? = some e → resident e →
    e.arrival_timestamp ≤ i ∧ e.last_access_timestamp ≤ i ∧
      1 ≤ e.reference_count ∧ e.reference_count ≤ i

/-- A loop body that, for reference `i` to page `p`, either counts a fault and
leaves the memory `mem s` alone (the page not being resident), or hands the
reference to the processor `proc` on `mem s` and counts a fault when the page
was not resident; in both cases the timestamp advances. -/
def StepSpec (proc : Mem → Int → Int → Except Fault (Int × Mem)) (mem : Sim → Mem)
    (refs : List Int) (body : Nat → Sim → Except Fault Sim) : Prop :=
  ∀ (i : Nat) (s : Sim) (p : Int) (e : PTE),
    readRef refs i = Except.ok p → index (mem s).page_table p = some e →
    (¬ resident e ∧ ∃ s', body i s = Except.ok s' ∧ mem s' = mem s ∧
      s'.page_faults = wrapInt (s.page_faults + 1) ∧
      s'.current_timestamp = wrapInt (s.current_timestamp + 1)) ∨
    (∀ r, proc (mem s) p s.current_timestamp = Except.ok r →
      ∃ s', body i s = Except.ok s' ∧ mem s' = r.2 ∧
        s'.page_faults = (if e.is_valid = 0 then wrapInt (s.page_faults + 1)
          else s.page_faults) ∧
        s'.current_timestamp = wrapInt (s.current_timestamp + 1))

/-- Every eviction scan of a run finds a victim: before each of the first `R`
references the loop state exists, and if the referenced page is absent while
the pool is empty then the scan, made at the current timestamp, selects an index
in `[0, table_cnt)` that holds a resident entry and differs from the referenced
page. -/
def VictimsFound (scan : List PTE → Int → Int → Except Fault Int) (mem : Sim → Mem)
    (refs : List Int) (body : Nat → Sim → Except Fault Sim) (s0 : Sim) (R : Nat) : Prop :=
  ∀ i, i < R → ∃ s p e, iterate i body s0 = Except.ok s ∧ readRef refs i = Except.ok p ∧
    index (mem s).page_table p = some e ∧
    (¬ resident e → (mem s).frame_cnt ≤ 0 →
      ∃ v ve, scan (mem s).page_table (mem s).table_cnt s.current_timestamp = Except.ok v ∧
        0 ≤ v ∧ v < (mem s).table_cnt ∧ index (mem s).page_table v = some ve ∧
        resident ve ∧ v ≠ p)

/-- The pre-populated table with an empty pool. -/
def prepopulatedMem : Mem :=
  { page_table := prepopulatedTable, table_cnt := 2, frame_pool := [], frame_cnt := 0 }

/-- The sample table with `*table_cnt = 2`, so that the absent page 2 lies in
the array but beyond the count, and two free frames. -/
def shortTableMem : Mem :=
  { page_table := sampleTable, table_cnt := 2, frame_pool := [5, 6], frame_cnt := 2 }

/-- The sample table with a pool count of `-1`. -/
def negativePoolMem : Mem :=
  { page_table := sampleTable, table_cnt := 3, frame_pool := [5, 6], frame_cnt := -1 }

/-! ## Basic facts: faults, arrays, loops -/

@[simp] theorem bind_ok {α β : Type} (a : α) (f : α → Except Fault β) :
    (Except.ok a >>= f) = f a := rfl

@[simp] theorem bind_error {α β : Type} (x : Fault) (f : α → Except Fault β) :
    (Except.error x >>= f) = Except.error x := rfl

@[simp] theorem pure_eq_ok {α : Type} (a : α) :
    (pure a : Except Fault α) = Except.ok a := rfl

theorem forLoop_eq_iterate {σ : Type} (n : Int) (body : Nat → σ → Except Fault σ)
    (init : σ) : forLoop n body init = iterate n.toNat body init := rfl

@[simp] theorem iterate_zero {σ : Type} (body : Nat → σ → Except Fault σ) (init : σ) :
    iterate 0 body init = Except.ok init := rfl

theorem iterate_succ {σ : Type} (n : Nat) (body : Nat → σ → Except Fault σ) (init : σ) :
    iterate (n + 1) body init = (iterate n body init >>= body n) := by
  unfold iterate
  rw [List.range_succ, List.foldlM_append]
  congr 1
  funext s
  simp only [List.foldlM]
  cases body n s <;> rfl

theorem index_eq_some {α : Type} {xs : List α} {i : Int} {a : α}
    (h : index xs i = some a) : 0 ≤ i ∧ i.toNat < xs.length ∧ xs[i.toNat]? = some a := by
  unfold index at h
  split at h
  · rename_i h0
    refine ⟨h0, ?_, h⟩
    exact (List.getElem?_eq_some_iff.mp h).1
  · simp at h

theorem index_natCast {α : Type} (xs : List α) (i : Nat) :
    index xs (i : Int) = xs[i]? := by
  simp [index]

theorem index_writePTE_same {t : List PTE} {i : Int} {e : PTE} (e' : PTE)
    (h : index t i = some e) : index (writePTE t i e') i = some e' := by
  obtain ⟨h0, hlt, -⟩ := index_eq_some h
  simp [index, writePTE, h0, hlt]

theorem index_writePTE_ne (t : List PTE) {i j : Int} (e' : PTE) (h : i ≠ j) :
    index (writePTE t i e') j = index t j := by
  unfold index writePTE
  by_cases hi : 0 ≤ i <;> by_cases hj : 0 ≤ j <;> simp [hi, hj]
  have : i.toNat ≠ j.toNat := by
    intro hc
    apply h
    omega
  simp [List.getElem?_set, this]

@[simp] theorem length_writePTE (t : List PTE) (i : Int) (e' : PTE) :
    (writePTE t i e').length = t.length := by
  unfold writePTE
  split <;> simp

theorem readPTE_eq_ok {t : List PTE} {i : Int} {e : PTE} :
    readPTE t i = Except.ok e ↔ index t i = some e := by
  unfold readPTE
  cases h : index t i <;> simp

theorem readPTE_of_index {t : List PTE} {i : Int} {e : PTE} (h : index t i = some e) :
    readPTE t i = Except.ok e := readPTE_eq_ok.mpr h

theorem readFrame_of_index {t : List Int} {i : Int} {f : Int} (h : index t i = some f) :
    readFrame t i = Except.ok f := by
  simp [readFrame, h]

theorem wrapInt_of_isInt32 {x : Int} (h : isInt32 x) : wrapInt x = x := by
  unfold isInt32 INT_MIN INT_MAX at h
  unfold wrapInt
  omega

/-! ## The victim scans -/

theorem keyed_scan_body_ok {K : Type} [LinearOrder K] (key : PTE → K) (t : List PTE)
    (i : Nat) (s s' : K × Int) (h : keyed_scan_body key t i s = Except.ok s') :
    ∃ e, t[i]? = some e ∧
      s' = if resident e ∧ key e < s.1 then (key e, (i : Int)) else s := by
  unfold keyed_scan_body at h
  cases hr : readPTE t i with
  | error x => simp [hr] at h
  | ok e =>
    refine ⟨e, ?_, ?_⟩
    · have := readPTE_eq_ok.mp hr
      rwa [index_natCast] at this
    · simp only [hr, bind_ok] at h
      unfold resident
      split at h <;> rename_i hc <;> simp only [pure_eq_ok, Except.ok.injEq] at h
      · rw [if_pos hc]; exact h.symm
      · rw [if_neg hc]; exact h.symm

theorem keyed_scan_result {K : Type} [LinearOrder K] (key : PTE → K) (t : List PTE)
    (k0 : K) (n : Nat) :
    ∀ s, iterate n (keyed_scan_body key t) (k0, -1) = Except.ok s →
      ScanResult key t n k0 s.1 s.2 := by
  induction n with
  | zero =>
    intro s h
    simp only [iterate_zero, Except.ok.injEq] at h
    subst h
    exact Or.inl ⟨rfl, rfl, fun i e hi => absurd hi (Nat.not_lt_zero i)⟩
  | succ n ih =>
    intro s h
    rw [iterate_succ] at h
    cases hprev : iterate n (keyed_scan_body key t) (k0, -1) with
    | error x => simp [hprev] at h
    | ok s1 =>
      rw [hprev, bind_ok] at h
      obtain ⟨e, hte, hs⟩ := keyed_scan_body_ok key t n s1 s h
      have inv := ih s1 hprev
      by_cases hc : resident e ∧ key e < s1.1
      · rw [if_pos hc] at hs
        subst hs
        right
        have hk0 : key e < k0 := by
          rcases inv with ⟨-, hk, -⟩ | ⟨j, e1, -, -, -, -, -, hlt, -, -⟩
          · rw [← hk]; exact hc.2
          · exact lt_trans hc.2 hlt
        have hbelow : ∀ i e', i < n → t[i]? = some e' → resident e' → key e < key e' := by
          intro i e' hi hi' hres
          rcases inv with ⟨-, hk, hall⟩ | ⟨j, e1, -, -, -, -, -, -, hall, -⟩
          · exact lt_of_lt_of_le hc.2 (hk ▸ hall i e' hi hi' hres)
          · exact lt_of_lt_of_le hc.2 (hall i e' hi hi' hres)
        refine ⟨n, e, rfl, Nat.lt_succ_self n, hte, hc.1, rfl, hk0, ?_, hbelow⟩
        intro i e' hi hi' hres
        rcases Nat.lt_succ_iff_lt_or_eq.mp hi with hlt | heq
        · exact le_of_lt (hbelow i e' hlt hi' hres)
        · subst heq
          rw [hte] at hi'
          cases hi'
          exact le_refl _
      · rw [if_neg hc] at hs
        subst hs
        have hnew : ∀ e', t[n]? = some e' → resident e' → s.1 ≤ key e' := by
          intro e' he' hres
          rw [hte] at he'
          cases he'
          exact not_lt.mp (fun hlt => hc ⟨hres, hlt⟩)
        rcases inv with ⟨hp, hk, hall⟩ | ⟨j, e1, hp, hj, hje, hres1, hkey, hlt, hall, hfirst⟩
        · left
          refine ⟨hp, hk, ?_⟩
          intro i e' hi hi' hres
          rcases Nat.lt_succ_iff_lt_or_eq.mp hi with hlt | heq
          · exact hall i e' hlt hi' hres
          · subst heq
            exact hk ▸ hnew e' hi' hres
        · right
          refine ⟨j, e1, hp, Nat.lt_succ_of_lt hj, hje, hres1, hkey, hlt, ?_, hfirst⟩
          intro i e' hi hi' hres
          rcases Nat.lt_succ_iff_lt_or_eq.mp hi with hlt' | heq
          · exact hall i e' hlt' hi' hres
          · subst heq
            exact hnew e' hi' hres

theorem keyed_scan_total {K : Type} [LinearOrder K] (key : PTE → K) (t : List PTE)
    (s0 : K × Int) (n : Nat) (hn : n ≤ t.length) :
    ∃ s, iterate n (keyed_scan_body key t) s0 = Except.ok s := by
  induction n with
  | zero => exact ⟨s0, rfl⟩
  | succ n ih =>
    obtain ⟨s, hs⟩ := ih (Nat.le_of_succ_le hn)
    have hlt : n < t.length := hn
    rw [iterate_succ, hs, bind_ok]
    unfold keyed_scan_body
    have : readPTE t (n : Int) = Except.ok t[n] := by
      apply readPTE_of_index
      rw [index_natCast]
      exact List.getElem?_eq_getElem hlt
    rw [this, bind_ok]
    split <;> exact ⟨_, rfl⟩

theorem fifo_scan_body_eq (t : List PTE) :
    fifo_scan_body t = keyed_scan_body PTE.arrival_timestamp t := by
  funext i s
  rfl

theorem lru_scan_body_eq (t : List PTE) :
    lru_scan_body t = keyed_scan_body PTE.last_access_timestamp t := by
  funext i s
  rfl

theorem lfu_scan_body_map (t : List PTE) (i : Nat) (s : Int × Int × Int) :
    (lfu_scan_body t i s >>= fun s' => Except.ok (lfuState s')) =
      keyed_scan_body lfuKey t i (lfuState s) := by
  unfold lfu_scan_body keyed_scan_body
  cases hr : readPTE t i with
  | error x => rfl
  | ok e =>
    simp only [bind_ok, pure_eq_ok]
    have hlt : lfuKey e < (lfuState s).1 ↔
        (e.reference_count < s.1 ∨
          (e.reference_count = s.1 ∧ e.arrival_timestamp < s.2.2)) := by
      unfold lfuKey lfuState
      rw [Prod.Lex.lt_iff]
    by_cases hv : e.is_valid ≠ 0
    · by_cases hc : e.reference_count < s.1 ∨
          (e.reference_count = s.1 ∧ e.arrival_timestamp < s.2.2)
      · rw [if_pos hv, if_pos hc, if_pos ⟨hv, hlt.mpr hc⟩]
        rfl
      · rw [if_pos hv, if_neg hc, if_neg (fun h => hc (hlt.mp h.2))]
        rfl
    · rw [if_neg hv, if_neg (fun h => hv h.1)]
      rfl

theorem lfu_iterate_map (t : List PTE) (s0 : Int × Int × Int) (n : Nat) :
    (iterate n (lfu_scan_body t) s0 >>= fun s' => Except.ok (lfuState s')) =
      iterate n (keyed_scan_body lfuKey t) (lfuState s0) := by
  induction n with
  | zero => rfl
  | succ n ih =>
    rw [iterate_succ, iterate_succ, ← ih]
    cases iterate n (lfu_scan_body t) s0 with
    | error x => rfl
    | ok s1 =>
      simp only [bind_ok]
      exact lfu_scan_body_map t n s1

theorem fifo_scan_spec {t : List PTE} {n ts v : Int} (h : fifo_scan t n ts = Except.ok v) :
    ∃ k, ScanResult PTE.arrival_timestamp t n.toNat ts k v := by
  unfold fifo_scan at h
  rw [forLoop_eq_iterate, fifo_scan_body_eq] at h
  cases hs : iterate n.toNat (keyed_scan_body PTE.arrival_timestamp t) (ts, -1) with
  | error x => simp [hs] at h
  | ok s =>
    simp only [hs, bind_ok, pure_eq_ok, Except.ok.injEq] at h
    subst h
    exact ⟨s.1, keyed_scan_result PTE.arrival_timestamp t ts n.toNat s hs⟩

theorem lru_scan_spec {t : List PTE} {n ts v : Int} (h : lru_scan t n ts = Except.ok v) :
    ∃ k, ScanResult PTE.last_access_timestamp t n.toNat ts k v := by
  unfold lru_scan at h
  rw [forLoop_eq_iterate, lru_scan_body_eq] at h
  cases hs : iterate n.toNat (keyed_scan_body PTE.last_access_timestamp t) (ts, -1) with
  | error x => simp [hs] at h
  | ok s =>
    simp only [hs, bind_ok, pure_eq_ok, Except.ok.injEq] at h
    subst h
    exact ⟨s.1, keyed_scan_result PTE.last_access_timestamp t ts n.toNat s hs⟩

theorem lfu_scan_spec {t : List PTE} {n ts v : Int} (h : lfu_scan t n ts = Except.ok v) :
    ∃ k, ScanResult lfuKey t n.toNat (toLex (INT_MAX, ts)) k v := by
  unfold lfu_scan at h
  rw [forLoop_eq_iterate] at h
  have hmap := lfu_iterate_map t (INT_MAX, -1, ts) n.toNat
  cases hs : iterate n.toNat (lfu_scan_body t) (INT_MAX, -1, ts) with
  | error x => simp [hs] at h
  | ok s =>
    simp only [hs, bind_ok, pure_eq_ok, Except.ok.injEq] at h hmap
    subst h
    exact ⟨(lfuState s).1, keyed_scan_result lfuKey t (toLex (INT_MAX, ts)) n.toNat
      (lfuState s) hmap.symm⟩

theorem fifo_scan_total (t : List PTE) (n ts : Int) (hn : n.toNat ≤ t.length) :
    ∃ v, fifo_scan t n ts = Except.ok v := by
  unfold fifo_scan
  rw [forLoop_eq_iterate, fifo_scan_body_eq]
  obtain ⟨s, hs⟩ := keyed_scan_total PTE.arrival_timestamp t (ts, -1) n.toNat hn
  exact ⟨s.2, by rw [hs]; rfl⟩

theorem lru_scan_total (t : List PTE) (n ts : Int) (hn : n.toNat ≤ t.length) :
    ∃ v, lru_scan t n ts = Except.ok v := by
  unfold lru_scan
  rw [forLoop_eq_iterate, lru_scan_body_eq]
  obtain ⟨s, hs⟩ := keyed_scan_total PTE.last_access_timestamp t (ts, -1) n.toNat hn
  exact ⟨s.2, by rw [hs]; rfl⟩

theorem lfu_scan_total (t : List PTE) (n ts : Int) (hn : n.toNat ≤ t.length) :
    ∃ v, lfu_scan t n ts = Except.ok v := by
  unfold lfu_scan
  rw [forLoop_eq_iterate]
  obtain ⟨s, hs⟩ := keyed_scan_total lfuKey t (lfuState (INT_MAX, -1, ts)) n.toNat hn
  have hmap := lfu_iterate_map t (INT_MAX, -1, ts) n.toNat
  rw [hs] at hmap
  cases hi : iterate n.toNat (lfu_scan_body t) (INT_MAX, -1, ts) with
  | error x => simp [hi] at hmap
  | ok s1 => exact ⟨s1.2.1, rfl⟩

theorem scanResult_sound {K : Type} [LinearOrder K] {key : PTE → K} {t : List PTE}
    {n : Nat} {k0 k : K} {v : Int} (h : ScanResult key t n k0 k v) (hv : v ≠ -1) :
    ∃ (j : Nat) (e : PTE), v = (j : Int) ∧ j < n ∧ t[j]? = some e ∧ resident e := by
  rcases h with ⟨hp, -, -⟩ | ⟨j, e, hp, hj, hje, hres, -⟩
  · exact absurd hp hv
  · exact ⟨j, e, hp, hj, hje, hres⟩

theorem fifo_scan_sound : ScanSound fifo_scan := by
  intro t n ts v h hv
  obtain ⟨k, hk⟩ := fifo_scan_spec h
  exact scanResult_sound hk hv

theorem lru_scan_sound : ScanSound lru_scan := by
  intro t n ts v h hv
  obtain ⟨k, hk⟩ := lru_scan_spec h
  exact scanResult_sound hk hv

theorem lfu_scan_sound : ScanSound lfu_scan := by
  intro t n ts v h hv
  obtain ⟨k, hk⟩ := lfu_scan_spec h
  exact scanResult_sound hk hv

/-! ## The three paths of an access processor -/

theorem access_hit (scan : List PTE → Int → Int → Except Fault Int) (m : Mem)
    (p ts : Int) (e : PTE) (he : index m.page_table p = some e) (hv : resident e) :
    process_page_access scan m p ts =
      Except.ok (e.frame_number,
        { m with page_table := writePTE m.page_table p (hitEntry e ts) }) := by
  unfold process_page_access
  rw [readPTE_of_index he, bind_ok, if_pos (show e.is_valid ≠ 0 from hv)]
  rfl

theorem access_alloc (scan : List PTE → Int → Int → Except Fault Int) (m : Mem)
    (p ts : Int) (e : PTE) (f : Int) (he : index m.page_table p = some e)
    (hv : ¬ resident e) (hc : 0 < m.frame_cnt)
    (hf : index m.frame_pool (m.frame_cnt - 1) = some f) :
    process_page_access scan m p ts =
      Except.ok (f, { m with frame_cnt := m.frame_cnt - 1,
                             page_table := writePTE m.page_table p (freshEntry f ts) }) := by
  unfold process_page_access
  rw [readPTE_of_index he, bind_ok, if_neg (show ¬ e.is_valid ≠ 0 from hv), if_pos hc]
  simp only [readFrame_of_index hf, bind_ok, pure_eq_ok]

theorem access_evict (scan : List PTE → Int → Int → Except Fault Int) (m : Mem)
    (p ts v : Int) (e ve : PTE) (he : index m.page_table p = some e)
    (hv : ¬ resident e) (hc : ¬ 0 < m.frame_cnt)
    (hs : scan m.page_table m.table_cnt ts = Except.ok v)
    (hve : index m.page_table v = some ve) :
    process_page_access scan m p ts =
      Except.ok (ve.frame_number,
        { m with page_table := writePTE (writePTE m.page_table v evictedEntry) p
                                 (freshEntry ve.frame_number ts) }) := by
  unfold process_page_access
  rw [readPTE_of_index he, bind_ok, if_neg (show ¬ e.is_valid ≠ 0 from hv),
    if_neg (show ¬ m.frame_cnt > 0 from hc)]
  simp only [hs, readPTE_of_index hve, bind_ok, pure_eq_ok]

theorem access_hit_post (scan : List PTE → Int → Int → Except Fault Int) (m : Mem)
    (p ts : Int) (e : PTE) (he : index m.page_table p = some e) (hv : resident e)
    (hr : isInt32 e.reference_count) (hlt : e.reference_count < INT_MAX) :
    HitPost e p ts (process_page_access scan m p ts) := by
  refine ⟨_, hitEntry e ts, access_hit scan m p ts e he hv,
    index_writePTE_same _ he, rfl, rfl, rfl, rfl, ?_⟩
  show wrapInt (e.reference_count + 1) = e.reference_count + 1
  apply wrapInt_of_isInt32
  unfold isInt32 INT_MIN INT_MAX at *
  omega

theorem access_alloc_post (scan : List PTE → Int → Int → Except Fault Int) (m : Mem)
    (p ts : Int) (e : PTE) (f : Int) (he : index m.page_table p = some e)
    (hv : ¬ resident e) (hc : 0 < m.frame_cnt)
    (hf : index m.frame_pool (m.frame_cnt - 1) = some f) :
    AllocPost m p ts f (process_page_access scan m p ts) := by
  refine ⟨_, freshEntry f ts, access_alloc scan m p ts e f he hv hc hf, rfl,
    index_writePTE_same _ he, ?_, rfl, rfl, rfl, rfl⟩
  show (1 : Int) ≠ 0
  decide

theorem access_evict_post (scan : List PTE → Int → Int → Except Fault Int)
    (hscan : ScanSound scan) (m : Mem) (p ts v : Int) (e : PTE)
    (he : index m.page_table p = some e) (hv : ¬ resident e) (hc : m.frame_cnt = 0)
    (hs : scan m.page_table m.table_cnt ts = Except.ok v) (hv1 : v ≠ -1) :
    EvictPost m p ts v (process_page_access scan m p ts) := by
  obtain ⟨j, ve, hvj, -, hje, hres⟩ := hscan _ _ _ _ hs hv1
  have hve : index m.page_table v = some ve := by
    rw [hvj, index_natCast]; exact hje
  have hne : p ≠ v := by
    intro h
    rw [h, hve] at he
    cases he
    exact hv hres
  have hc' : ¬ 0 < m.frame_cnt := by omega
  refine ⟨ve, _, evictedEntry, freshEntry ve.frame_number ts, hve,
    access_evict scan m p ts v e ve he hv hc' hs hve, ?_, ?_, rfl, rfl, rfl, rfl,
    ?_, ?_, rfl, rfl, rfl, rfl⟩
  · show index (writePTE (writePTE m.page_table v evictedEntry) p _) v = _
    rw [index_writePTE_ne _ _ hne]
    exact index_writePTE_same _ hve
  · show ¬ (0 : Int) ≠ 0
    decide
  · show index (writePTE (writePTE m.page_table v evictedEntry) p _) p = _
    apply index_writePTE_same (e := e)
    rw [index_writePTE_ne _ _ (Ne.symm hne)]
    exact he
  · show (1 : Int) ≠ 0
    decide

/-! ## C1: the hit path -/

/-- C1, as stated, fails when the reference count is `INT_MAX`: a hit on
`saturatedEntry` leaves the count at `INT_MIN`, not at one more than before. -/
theorem hit_path_saturated_counterexample :
    index saturatedMem.page_table 0 = some saturatedEntry ∧ resident saturatedEntry ∧
    process_page_access_fifo saturatedMem 0 5 =
      Except.ok (7, { saturatedMem with page_table :=
        [{ saturatedEntry with last_access_timestamp := 5,
                               reference_count := -2147483648 }] }) ∧
    ¬ HitPost saturatedEntry 0 5 (process_page_access_fifo saturatedMem 0 5) := by
  have hrun : process_page_access_fifo saturatedMem 0 5 =
      Except.ok (7, { saturatedMem with page_table :=
        [{ saturatedEntry with last_access_timestamp := 5,
                               reference_count := -2147483648 }] }) := by
    rfl
  refine ⟨rfl, by decide, hrun, ?_⟩
  rintro ⟨m', e', hr, hidx, -, -, -, -, hrc⟩
  rw [hrun] at hr
  simp only [Except.ok.injEq, Prod.mk.injEq] at hr
  rw [← hr.2] at hidx
  simp only [index] at hidx
  simp at hidx
  rw [← hidx] at hrc
  simp [saturatedEntry] at hrc

/-- C1 (amended): for each of the three access processors, a hit on a resident
entry whose reference count is below `INT_MAX` returns the entry's frame, keeps
`is_valid`, `frame_number` and `arrival_timestamp`, sets
`last_access_timestamp` to the call's timestamp and raises `reference_count` by
exactly 1. -/
theorem hit_path (m : Mem) (p ts : Int) (e : PTE)
    (he : index m.page_table p = some e) (hv : resident e)
    (hr : isInt32 e.reference_count) (hlt : e.reference_count < INT_MAX) :
    HitPost e p ts (process_page_access_fifo m p ts) ∧
    HitPost e p ts (process_page_access_lru m p ts) ∧
    HitPost e p ts (process_page_access_lfu m p ts) :=
  ⟨access_hit_post fifo_scan m p ts e he hv hr hlt,
   access_hit_post lru_scan m p ts e he hv hr hlt,
   access_hit_post lfu_scan m p ts e he hv hr hlt⟩

/-- Instance of `hit_path`: page 0 of the sample table, accessed at time 9. -/
theorem hit_path_witness :
    HitPost sampleEntry0 0 9 (process_page_access_fifo sampleMemFull 0 9) ∧
    HitPost sampleEntry0 0 9 (process_page_access_lru sampleMemFull 0 9) ∧
    HitPost sampleEntry0 0 9 (process_page_access_lfu sampleMemFull 0 9) :=
  hit_path sampleMemFull 0 9 sampleEntry0 rfl (by decide) (by decide) (by decide)

/-! ## C2: a fault served from the pool -/

/-- C2: for each of the three access processors, a fault on a page that is not
resident while `*frame_cnt > 0` takes the frame `f = frame_pool[*frame_cnt - 1]`,
lowers `*frame_cnt` by 1, makes the entry resident with `frame_number = f`, both
timestamps equal to `current_timestamp` and `reference_count = 1`, and returns
`f`. -/
theorem fault_with_free_frame (m : Mem) (p ts : Int) (e : PTE) (f : Int)
    (he : index m.page_table p = some e) (hv : ¬ resident e) (hc : 0 < m.frame_cnt)
    (hf : index m.frame_pool (m.frame_cnt - 1) = some f) :
    AllocPost m p ts f (process_page_access_fifo m p ts) ∧
    AllocPost m p ts f (process_page_access_lru m p ts) ∧
    AllocPost m p ts f (process_page_access_lfu m p ts) :=
  ⟨access_alloc_post fifo_scan m p ts e f he hv hc hf,
   access_alloc_post lru_scan m p ts e f he hv hc hf,
   access_alloc_post lfu_scan m p ts e f he hv hc hf⟩

/-- Instance of `fault_with_free_frame`: page 2 of the sample table with one
free frame, which is frame 5. -/
theorem fault_with_free_frame_witness :
    AllocPost sampleMemFree 2 9 5 (process_page_access_fifo sampleMemFree 2 9) ∧
    AllocPost sampleMemFree 2 9 5 (process_page_access_lru sampleMemFree 2 9) ∧
    AllocPost sampleMemFree 2 9 5 (process_page_access_lfu sampleMemFree 2 9) :=
  fault_with_free_frame sampleMemFree 2 9 evictedEntry 5 rfl (by decide) (by decide) rfl

/-! ## C3: a fault served by eviction -/

/-- C3: for each of the three access processors on its own, when the page is
not resident, `*frame_cnt` is 0 and that processor's scan selects a victim `v`
(an index other than the sentinel `-1`), the call leaves `v` not resident with
its four other fields `-1`, makes the page resident on the victim's former frame
with both timestamps equal to `current_timestamp` and `reference_count = 1`,
and returns that frame.  Nothing is assumed about the scans of the other two
processors. -/
theorem fault_with_eviction (m : Mem) (p ts v : Int) (e : PTE)
    (he : index m.page_table p = some e) (hv : ¬ resident e) (hc : m.frame_cnt = 0)
    (hv1 : v ≠ -1) :
    (fifo_scan m.page_table m.table_cnt ts = Except.ok v →
      EvictPost m p ts v (process_page_access_fifo m p ts)) ∧
    (lru_scan m.page_table m.table_cnt ts = Except.ok v →
      EvictPost m p ts v (process_page_access_lru m p ts)) ∧
    (lfu_scan m.page_table m.table_cnt ts = Except.ok v →
      EvictPost m p ts v (process_page_access_lfu m p ts)) :=
  ⟨fun hs => access_evict_post fifo_scan fifo_scan_sound m p ts v e he hv hc hs hv1,
   fun hs => access_evict_post lru_scan lru_scan_sound m p ts v e he hv hc hs hv1,
   fun hs => access_evict_post lfu_scan lfu_scan_sound m p ts v e he hv hc hs hv1⟩

/-- Instance of `fault_with_eviction`: page 2 of the full sample table at time
9, where FIFO and LFU evict page 1 and LRU evicts page 0; and page 1 of the
pre-populated table at time 1, where the FIFO and LRU scans select nothing and
the LFU processor alone evicts page 0. -/
theorem fault_with_eviction_witness :
    EvictPost sampleMemFull 2 9 1 (process_page_access_fifo sampleMemFull 2 9) ∧
    EvictPost sampleMemFull 2 9 0 (process_page_access_lru sampleMemFull 2 9) ∧
    EvictPost sampleMemFull 2 9 1 (process_page_access_lfu sampleMemFull 2 9) ∧
    fifo_scan prepopulatedMem.page_table prepopulatedMem.table_cnt 1 = Except.ok (-1) ∧
    lru_scan prepopulatedMem.page_table prepopulatedMem.table_cnt 1 = Except.ok (-1) ∧
    EvictPost prepopulatedMem 1 1 0 (process_page_access_lfu prepopulatedMem 1 1) :=
  ⟨(fault_with_eviction sampleMemFull 2 9 1 evictedEntry rfl (by decide) rfl
      (by decide)).1 rfl,
   (fault_with_eviction sampleMemFull 2 9 0 evictedEntry rfl (by decide) rfl
      (by decide)).2.1 rfl,
   (fault_with_eviction sampleMemFull 2 9 1 evictedEntry rfl (by decide) rfl
      (by decide)).2.2 rfl,
   rfl, rfl,
   (fault_with_eviction prepopulatedMem 1 1 0 evictedEntry rfl (by decide) rfl
      (by decide)).2.2 rfl⟩

/-! ## C4, C5, C6: which entry is evicted -/

theorem scanResult_victim {K : Type} [LinearOrder K] {key : PTE → K} {t : List PTE}
    {n : Nat} {k0 k : K} {v : Int} (h : ScanResult key t n k0 k v)
    (hex : ∃ i e, i < n ∧ t[i]? = some e ∧ resident e ∧ key e < k0) :
    ∃ j : Nat, v = (j : Int) ∧ FirstMinVictim key t n j := by
  rcases h with ⟨-, -, hall⟩ | ⟨j, e, hp, hj, hje, hres, hkey, -, hall, hfirst⟩
  · obtain ⟨i, e, hi, hie, hres, hlt⟩ := hex
    exact absurd hlt (not_lt.mpr (hall i e hi hie hres))
  · subst hkey
    exact ⟨j, hp, hj, e, hje, hres, hall, hfirst⟩

theorem firstMinVictim_evict (scan : List PTE → Int → Int → Except Fault Int)
    (hscan : ScanSound scan) (m : Mem) (p ts : Int) (e : PTE) (v : Nat)
    (he : index m.page_table p = some e) (hv : ¬ resident e) (hc : m.frame_cnt = 0)
    (hs : scan m.page_table m.table_cnt ts = Except.ok (v : Int)) :
    EvictPost m p ts v (process_page_access scan m p ts) :=
  access_evict_post scan hscan m p ts v e he hv hc hs (by omega)

/-- C4: in `process_page_access_fifo`, on a fault with an empty pool, when one
of the first `*table_cnt` entries is resident and every resident entry arrived
before `current_timestamp`, the evicted entry is resident, its
`arrival_timestamp` is the minimum over the resident entries, and it is the
first entry (lowest index) with that minimum. -/
theorem fifo_victim_selection (m : Mem) (p ts : Int) (e : PTE)
    (hcap : m.table_cnt.toNat ≤ m.page_table.length)
    (he : index m.page_table p = some e) (hv : ¬ resident e) (hc : m.frame_cnt = 0)
    (hex : ∃ i e', i < m.table_cnt.toNat ∧ m.page_table[i]? = some e' ∧ resident e')
    (hts : ∀ i e', i < m.table_cnt.toNat → m.page_table[i]? = some e' → resident e' →
      e'.arrival_timestamp < ts) :
    ∃ v : Nat, fifo_scan m.page_table m.table_cnt ts = Except.ok (v : Int) ∧
      EvictPost m p ts v (process_page_access_fifo m p ts) ∧
      FirstMinVictim PTE.arrival_timestamp m.page_table m.table_cnt.toNat v := by
  obtain ⟨v, hs⟩ := fifo_scan_total m.page_table m.table_cnt ts hcap
  obtain ⟨k, hk⟩ := fifo_scan_spec hs
  obtain ⟨i, e', hi, hie, hres⟩ := hex
  obtain ⟨j, hvj, hmin⟩ := scanResult_victim hk ⟨i, e', hi, hie, hres, hts i e' hi hie hres⟩
  subst hvj
  exact ⟨j, hs, firstMinVictim_evict fifo_scan fifo_scan_sound m p ts e j he hv hc hs, hmin⟩

/-- Instance of `fifo_victim_selection`: page 2 of the full sample table at
time 9. -/
theorem fifo_victim_selection_witness :
    ∃ v : Nat, fifo_scan sampleMemFull.page_table sampleMemFull.table_cnt 9 =
        Except.ok (v : Int) ∧
      EvictPost sampleMemFull 2 9 v (process_page_access_fifo sampleMemFull 2 9) ∧
      FirstMinVictim PTE.arrival_timestamp sampleMemFull.page_table
        sampleMemFull.table_cnt.toNat v :=
  fifo_victim_selection sampleMemFull 2 9 evictedEntry (by decide) rfl (by decide) rfl
    ⟨0, sampleEntry0, by decide, rfl, by decide⟩
    (by
      intro i e' hi hie hres
      have hi3 : i < 3 := hi
      interval_cases i <;> simp [sampleMemFull, sampleTable] at hie <;> subst hie
      · decide
      · decide
      · exact absurd hres (by decide))

/-- C5: in `process_page_access_lru`, on a fault with an empty pool, when one of
the first `*table_cnt` entries is resident and every resident entry was last
accessed before `current_timestamp`, the evicted entry is resident, its
`last_access_timestamp` is the minimum over the resident entries, and it is the
first entry (lowest index) with that minimum. -/
theorem lru_victim_selection (m : Mem) (p ts : Int) (e : PTE)
    (hcap : m.table_cnt.toNat ≤ m.page_table.length)
    (he : index m.page_table p = some e) (hv : ¬ resident e) (hc : m.frame_cnt = 0)
    (hex : ∃ i e', i < m.table_cnt.toNat ∧ m.page_table[i]? = some e' ∧ resident e')
    (hts : ∀ i e', i < m.table_cnt.toNat → m.page_table[i]? = some e' → resident e' →
      e'.last_access_timestamp < ts) :
    ∃ v : Nat, lru_scan m.page_table m.table_cnt ts = Except.ok (v : Int) ∧
      EvictPost m p ts v (process_page_access_lru m p ts) ∧
      FirstMinVictim PTE.last_access_timestamp m.page_table m.table_cnt.toNat v := by
  obtain ⟨v, hs⟩ := lru_scan_total m.page_table m.table_cnt ts hcap
  obtain ⟨k, hk⟩ := lru_scan_spec hs
  obtain ⟨i, e', hi, hie, hres⟩ := hex
  obtain ⟨j, hvj, hmin⟩ := scanResult_victim hk ⟨i, e', hi, hie, hres, hts i e' hi hie hres⟩
  subst hvj
  exact ⟨j, hs, firstMinVictim_evict lru_scan lru_scan_sound m p ts e j he hv hc hs, hmin⟩

/-- Instance of `lru_victim_selection`: page 2 of the full sample table at
time 9. -/
theorem lru_victim_selection_witness :
    ∃ v : Nat, lru_scan sampleMemFull.page_table sampleMemFull.table_cnt 9 =
        Except.ok (v : Int) ∧
      EvictPost sampleMemFull 2 9 v (process_page_access_lru sampleMemFull 2 9) ∧
      FirstMinVictim PTE.last_access_timestamp sampleMemFull.page_table
        sampleMemFull.table_cnt.toNat v :=
  lru_victim_selection sampleMemFull 2 9 evictedEntry (by decide) rfl (by decide) rfl
    ⟨0, sampleEntry0, by decide, rfl, by decide⟩
    (by
      intro i e' hi hie hres
      have hi3 : i < 3 := hi
      interval_cases i <;> simp [sampleMemFull, sampleTable] at hie <;> subst hie
      · decide
      · decide
      · exact absurd hres (by decide))

theorem lfuVictim_of_firstMin {t : List PTE} {n v : Nat}
    (h : FirstMinVictim lfuKey t n v) : LfuVictim t n v := by
  obtain ⟨hvn, ve, hve, hres, hall, -⟩ := h
  have key_le : ∀ i e, i < n → t[i]? = some e → resident e →
      ve.reference_count < e.reference_count ∨
        (ve.reference_count = e.reference_count ∧
          ve.arrival_timestamp ≤ e.arrival_timestamp) := by
    intro i e hi hie hr
    have := hall i e hi hie hr
    unfold lfuKey at this
    rwa [Prod.Lex.le_iff] at this
  refine ⟨hvn, ve, hve, hres, ?_, ?_, ?_⟩
  · intro i e hi hie hr
    rcases key_le i e hi hie hr with h1 | ⟨h1, -⟩ <;> omega
  · intro i e hi hie hr heq
    rcases key_le i e hi hie hr with h1 | ⟨-, h2⟩
    · omega
    · exact h2
  · intro i j ei ej hi hj hie hje hri hrj heq hlt hvj
    subst hvj
    rw [hve] at hje
    cases hje
    rcases key_le i ei hi hie hri with h1 | ⟨-, h2⟩ <;> omega

/-- C6: in `process_page_access_lfu`, on a fault with an empty pool, when one of
the first `*table_cnt` entries is resident and every resident entry arrived
before `current_timestamp` (reference counts being `int` values), the evicted
entry is resident, has the minimum `reference_count` over the resident entries
and, among those of that count, the minimum `arrival_timestamp`; of two resident
pages with equal count and different arrival the later one is never evicted,
whatever their index order. -/
theorem lfu_victim_selection (m : Mem) (p ts : Int) (e : PTE)
    (hcap : m.table_cnt.toNat ≤ m.page_table.length)
    (he : index m.page_table p = some e) (hv : ¬ resident e) (hc : m.frame_cnt = 0)
    (hex : ∃ i e', i < m.table_cnt.toNat ∧ m.page_table[i]? = some e' ∧ resident e')
    (hts : ∀ i e', i < m.table_cnt.toNat → m.page_table[i]? = some e' → resident e' →
      e'.arrival_timestamp < ts)
    (hint : ∀ i e', i < m.table_cnt.toNat → m.page_table[i]? = some e' → resident e' →
      isInt32 e'.reference_count) :
    ∃ v : Nat, lfu_scan m.page_table m.table_cnt ts = Except.ok (v : Int) ∧
      EvictPost m p ts v (process_page_access_lfu m p ts) ∧
      LfuVictim m.page_table m.table_cnt.toNat v := by
  obtain ⟨v, hs⟩ := lfu_scan_total m.page_table m.table_cnt ts hcap
  obtain ⟨k, hk⟩ := lfu_scan_spec hs
  obtain ⟨i, e', hi, hie, hres⟩ := hex
  have hbelow : lfuKey e' < toLex (INT_MAX, ts) := by
    unfold lfuKey
    rw [Prod.Lex.lt_iff]
    have h1 := (hint i e' hi hie hres).2
    have h2 := hts i e' hi hie hres
    show e'.reference_count < INT_MAX ∨
      e'.reference_count = INT_MAX ∧ e'.arrival_timestamp < ts
    omega
  obtain ⟨j, hvj, hmin⟩ := scanResult_victim hk ⟨i, e', hi, hie, hres, hbelow⟩
  subst hvj
  exact ⟨j, hs, firstMinVictim_evict lfu_scan lfu_scan_sound m p ts e j he hv hc hs,
    lfuVictim_of_firstMin hmin⟩

/-- Instance of `lfu_victim_selection`: two pages of equal count, the later
arrival stored first; page 1, the earlier arrival, is the one evicted. -/
theorem lfu_victim_selection_witness :
    lfu_scan tieMem.page_table tieMem.table_cnt 9 = Except.ok 1 ∧
    ∃ v : Nat, lfu_scan tieMem.page_table tieMem.table_cnt 9 = Except.ok (v : Int) ∧
      EvictPost tieMem 2 9 v (process_page_access_lfu tieMem 2 9) ∧
      LfuVictim tieMem.page_table tieMem.table_cnt.toNat v :=
  ⟨rfl, lfu_victim_selection tieMem 2 9 evictedEntry (by decide) rfl (by decide) rfl
    ⟨0, _, by decide, rfl, by decide⟩
    (by
      intro i e' hi hie hres
      have hi3 : i < 3 := hi
      interval_cases i <;> simp [tieMem, tieTable] at hie <;> subst hie
      · decide
      · decide
      · exact absurd hres (by decide))
    (by
      intro i e' hi hie hres
      have hi3 : i < 3 := hi
      interval_cases i <;> simp [tieMem, tieTable] at hie <;> subst hie
      · decide
      · decide
      · exact absurd hres (by decide))⟩

/-! ## C7: the FIFO and LRU drivers leave the caller's arrays alone -/

theorem bind_eq_ok {α β : Type} {x : Except Fault α} {f : α → Except Fault β} {b : β} :
    (x >>= f) = Except.ok b ↔ ∃ a, x = Except.ok a ∧ f a = Except.ok b := by
  cases x with
  | error e => simp
  | ok a => simp

theorem iterate_invariant {σ : Type} (P : σ → Prop) (body : Nat → σ → Except Fault σ)
    (hbody : ∀ i s s', P s → body i s = Except.ok s' → P s') :
    ∀ (n : Nat) (s0 s : σ), P s0 → iterate n body s0 = Except.ok s → P s := by
  intro n
  induction n with
  | zero =>
    intro s0 s h0 h
    simp only [iterate_zero, Except.ok.injEq] at h
    exact h ▸ h0
  | succ n ih =>
    intro s0 s h0 h
    rw [iterate_succ, bind_eq_ok] at h
    obtain ⟨s1, h1, h2⟩ := h
    exact hbody n s1 s (ih s0 s1 h0 h1) h2

theorem copy_table_body_caller (TABLEMAX i : Nat) (s s' : Sim)
    (h : copy_table_body TABLEMAX i s = Except.ok s') :
    s'.page_table = s.page_table ∧ s'.frame_pool = s.frame_pool := by
  unfold copy_table_body at h
  rw [bind_eq_ok] at h
  obtain ⟨e, -, h⟩ := h
  split at h
  · cases h
  · split at h <;> cases h <;> exact ⟨rfl, rfl⟩

theorem copy_pool_body_caller (POOLMAX i : Nat) (s s' : Sim)
    (h : copy_pool_body POOLMAX i s = Except.ok s') :
    s'.page_table = s.page_table ∧ s'.frame_pool = s.frame_pool := by
  unfold copy_pool_body at h
  rw [bind_eq_ok] at h
  obtain ⟨e, -, h⟩ := h
  split at h
  · cases h
  · cases h; exact ⟨rfl, rfl⟩

theorem call_on_local_caller (proc : Mem → Int → Int → Except Fault (Int × Mem))
    (s s' : Sim) (p : Int) (h : call_on_local proc s p = Except.ok s') :
    s'.page_table = s.page_table ∧ s'.frame_pool = s.frame_pool := by
  unfold call_on_local at h
  rw [bind_eq_ok] at h
  obtain ⟨r, -, h⟩ := h
  cases h
  exact ⟨rfl, rfl⟩

theorem fifo_loop_body_caller (refs : List Int) (frame_cnt : Int) (i : Nat) (s s' : Sim)
    (h : fifo_loop_body refs frame_cnt i s = Except.ok s') :
    s'.page_table = s.page_table ∧ s'.frame_pool = s.frame_pool := by
  unfold fifo_loop_body at h
  rw [bind_eq_ok] at h
  obtain ⟨p, -, h⟩ := h
  rw [bind_eq_ok] at h
  obtain ⟨e, -, h⟩ := h
  rw [bind_eq_ok] at h
  obtain ⟨s1, h1, h⟩ := h
  cases h
  show s1.page_table = _ ∧ s1.frame_pool = _
  split at h1
  · simp only [] at h1
    split at h1
    · cases h1; exact ⟨rfl, rfl⟩
    · have := call_on_local_caller _ _ _ _ h1
      exact this
  · exact call_on_local_caller _ _ _ _ h1

theorem lru_loop_body_caller (refs : List Int) (frame_cnt : Int) (i : Nat) (s s' : Sim)
    (h : lru_loop_body refs frame_cnt i s = Except.ok s') :
    s'.page_table = s.page_table ∧ s'.frame_pool = s.frame_pool := by
  unfold lru_loop_body at h
  rw [bind_eq_ok] at h
  obtain ⟨p, -, h⟩ := h
  rw [bind_eq_ok] at h
  obtain ⟨e, -, h⟩ := h
  simp only [] at h
  rw [bind_eq_ok] at h
  obtain ⟨s2, h2, h⟩ := h
  cases h
  have := call_on_local_caller _ _ _ _ h2
  show s2.page_table = _ ∧ s2.frame_pool = _
  rw [this.1, this.2]
  split <;> [split; skip] <;> exact ⟨rfl, rfl⟩

theorem forLoop_invariant {σ : Type} (P : σ → Prop) (body : Nat → σ → Except Fault σ)
    (hbody : ∀ i s s', P s → body i s = Except.ok s' → P s')
    (n : Int) (s0 s : σ) (h0 : P s0) (h : forLoop n body s0 = Except.ok s) : P s :=
  iterate_invariant P body hbody n.toNat s0 s h0 h

/-- C7: whenever `count_page_faults_fifo` or `count_page_faults_lru` returns,
the caller's page table and the caller's frame pool hold exactly what they held
before the call; every write of the simulation goes to the local copies.  (The
two counts are passed by value, so the caller's variables are out of the
callee's reach.) -/
theorem driver_isolation (TABLEMAX POOLMAX : Nat) (page_table : List PTE) (table_cnt : Int)
    (reference_string : List Int) (reference_cnt : Int) (frame_pool : List Int)
    (frame_cnt : Int) :
    (∀ r, count_page_faults_fifo TABLEMAX POOLMAX page_table table_cnt reference_string
        reference_cnt frame_pool frame_cnt = Except.ok r →
      r.2.1 = page_table ∧ r.2.2 = frame_pool) ∧
    (∀ r, count_page_faults_lru TABLEMAX POOLMAX page_table table_cnt reference_string
        reference_cnt frame_pool frame_cnt = Except.ok r →
      r.2.1 = page_table ∧ r.2.2 = frame_pool) := by
  have keep : ∀ (body : Nat → Sim → Except Fault Sim),
      (∀ i s s', body i s = Except.ok s' →
        s'.page_table = s.page_table ∧ s'.frame_pool = s.frame_pool) →
      ∀ (n : Int) (s0 s : Sim), forLoop n body s0 = Except.ok s →
        s.page_table = s0.page_table ∧ s.frame_pool = s0.frame_pool := by
    intro body hb n s0 s h
    refine forLoop_invariant
      (fun x => x.page_table = s0.page_table ∧ x.frame_pool = s0.frame_pool) body ?_
      n s0 s ⟨rfl, rfl⟩ h
    intro i x x' hx hstep
    have := hb i x x' hstep
    exact ⟨this.1.trans hx.1, this.2.trans hx.2⟩
  constructor
  · intro r h
    unfold count_page_faults_fifo at h
    simp only [bind_eq_ok] at h
    obtain ⟨s1, h1, s2, h2, s3, h3, h⟩ := h
    cases h
    have k1 := keep _ (copy_table_body_caller TABLEMAX) _ _ _ h1
    have k2 := keep _ (copy_pool_body_caller POOLMAX) _ _ _ h2
    have k3 := keep _ (fifo_loop_body_caller reference_string frame_cnt) _ _ _ h3
    exact ⟨k3.1.trans (k2.1.trans k1.1), k3.2.trans (k2.2.trans k1.2)⟩
  · intro r h
    unfold count_page_faults_lru at h
    simp only [bind_eq_ok] at h
    obtain ⟨s1, h1, s2, h2, s3, h3, h⟩ := h
    cases h
    have k1 := keep _ (copy_table_body_caller TABLEMAX) _ _ _ h1
    have k2 := keep _ (copy_pool_body_caller POOLMAX) _ _ _ h2
    have k3 := keep _ (lru_loop_body_caller reference_string frame_cnt) _ _ _ h3
    exact ⟨k3.1.trans (k2.1.trans k1.1), k3.2.trans (k2.2.trans k1.2)⟩

/-- Instance of `driver_isolation`: both drivers run on the sample table with
references 2, 0, 2 and one free frame; each returns one fault. -/
theorem driver_isolation_witness :
    count_page_faults_fifo 4 4 sampleTable 3 [2, 0, 2] 3 [5, 6] 1 =
      Except.ok (1, sampleTable, [5, 6]) ∧
    count_page_faults_lru 4 4 sampleTable 3 [2, 0, 2] 3 [5, 6] 1 =
      Except.ok (1, sampleTable, [5, 6]) ∧
    (((1 : Int), sampleTable, [5, 6]) : Int × List PTE × List Int).2.1 = sampleTable ∧
    (((1 : Int), sampleTable, [5, 6]) : Int × List PTE × List Int).2.2 = [5, 6] :=
  ⟨rfl, rfl,
    ((driver_isolation 4 4 sampleTable 3 [2, 0, 2] 3 [5, 6] 1).1 _ rfl).1,
    ((driver_isolation 4 4 sampleTable 3 [2, 0, 2] 3 [5, 6] 1).2 _ rfl).2⟩

/-! ## C8: frames are neither created nor lost -/

theorem access_cases (scan : List PTE → Int → Int → Except Fault Int) (m : Mem)
    (p ts : Int) (r : Int × Mem) (h : process_page_access scan m p ts = Except.ok r) :
    ∃ e, index m.page_table p = some e ∧
      ((resident e ∧
          r = (e.frame_number,
            { m with page_table := writePTE m.page_table p (hitEntry e ts) })) ∨
       (¬ resident e ∧ 0 < m.frame_cnt ∧
          ∃ f, index m.frame_pool (m.frame_cnt - 1) = some f ∧
            r = (f, { m with frame_cnt := m.frame_cnt - 1,
                             page_table := writePTE m.page_table p (freshEntry f ts) })) ∨
       (¬ resident e ∧ ¬ 0 < m.frame_cnt ∧
          ∃ v ve, scan m.page_table m.table_cnt ts = Except.ok v ∧
            index m.page_table v = some ve ∧
            r = (ve.frame_number,
              { m with page_table := writePTE (writePTE m.page_table v evictedEntry) p
                                       (freshEntry ve.frame_number ts) }))) := by
  cases hread : readPTE m.page_table p with
  | error x =>
    unfold process_page_access at h
    rw [hread] at h
    cases h
  | ok e =>
    have he := readPTE_eq_ok.mp hread
    refine ⟨e, he, ?_⟩
    by_cases hv : resident e
    · rw [access_hit scan m p ts e he hv] at h
      cases h
      exact Or.inl ⟨hv, rfl⟩
    · by_cases hc : 0 < m.frame_cnt
      · cases hf : index m.frame_pool (m.frame_cnt - 1) with
        | none =>
          unfold process_page_access at h
          rw [hread, bind_ok, if_neg (show ¬ e.is_valid ≠ 0 from hv), if_pos hc] at h
          simp [readFrame, hf] at h
        | some f =>
          rw [access_alloc scan m p ts e f he hv hc hf] at h
          cases h
          exact Or.inr (Or.inl ⟨hv, hc, f, rfl, rfl⟩)
      · cases hs : scan m.page_table m.table_cnt ts with
        | error x =>
          unfold process_page_access at h
          rw [hread, bind_ok, if_neg (show ¬ e.is_valid ≠ 0 from hv),
            if_neg (show ¬ m.frame_cnt > 0 from hc), hs] at h
          cases h
        | ok v =>
          cases hrv : readPTE m.page_table v with
          | error x =>
            unfold process_page_access at h
            rw [hread, bind_ok, if_neg (show ¬ e.is_valid ≠ 0 from hv),
              if_neg (show ¬ m.frame_cnt > 0 from hc), hs, bind_ok, hrv] at h
            cases h
          | ok ve =>
            have hve := readPTE_eq_ok.mp hrv
            rw [access_evict scan m p ts v e ve he hv hc hs hve] at h
            cases h
            exact Or.inr (Or.inr ⟨hv, hc, v, ve, rfl, hve, rfl⟩)

theorem residentCount_write (t : List PTE) (n : Nat) (i : Int) (old a : PTE)
    (hi : index t i = some old) (hin : i.toNat < n) :
    residentCount (writePTE t i a) n + (if resident old then 1 else 0) =
      residentCount t n + (if resident a then 1 else 0) := by
  obtain ⟨h0, hlen, hget⟩ := index_eq_some hi
  have hlt : i.toNat < (t.take n).length := by
    rw [List.length_take]; omega
  have hold : (t.take n)[i.toNat] = old := by
    rw [List.getElem_take]
    exact (List.getElem?_eq_some_iff.mp hget).2
  unfold residentCount writePTE
  rw [if_pos h0, List.set_take, List.countP_set _ _ _ _ hlt, hold]
  have hle := List.boole_getElem_le_countP (fun e => decide (resident e)) (t.take n)
    i.toNat hlt
  rw [hold] at hle
  simp only [decide_eq_true_eq] at hle ⊢
  omega

theorem access_step (scan : List PTE → Int → Int → Except Fault Int)
    (hscan : ScanSound scan) (m : Mem) (p ts : Int) (r : Int × Mem)
    (hp : p < m.table_cnt) (h : process_page_access scan m p ts = Except.ok r) :
    frameTotal r.2 = frameTotal m ∧ r.2.table_cnt = m.table_cnt ∧
      (0 ≤ m.frame_cnt → 0 ≤ r.2.frame_cnt) := by
  obtain ⟨e, he, hcase⟩ := access_cases scan m p ts r h
  have hp0 := (index_eq_some he).1
  have hpn : p.toNat < m.table_cnt.toNat := by omega
  rcases hcase with ⟨hv, hr⟩ | ⟨hv, hc, f, -, hr⟩ | ⟨hv, hc, v, ve, hs, hve, hr⟩
  · subst hr
    refine ⟨?_, rfl, fun h0 => h0⟩
    have := residentCount_write m.page_table m.table_cnt.toNat p e (hitEntry e ts) he hpn
    have hres : resident (hitEntry e ts) := hv
    rw [if_pos hv, if_pos hres] at this
    unfold frameTotal
    simp only
    omega
  · subst hr
    refine ⟨?_, rfl, fun _ => by simp only; omega⟩
    have := residentCount_write m.page_table m.table_cnt.toNat p e (freshEntry f ts) he hpn
    have hres : resident (freshEntry f ts) := by
      show (1 : Int) ≠ 0
      decide
    rw [if_neg hv, if_pos hres] at this
    unfold frameTotal
    simp only
    omega
  · subst hr
    refine ⟨?_, rfl, fun h0 => h0⟩
    have hv1 : v ≠ -1 := by
      intro hc1
      rw [hc1] at hve
      simp [index] at hve
    obtain ⟨j, ve', hvj, hjn, hje, hres⟩ := hscan _ _ _ _ hs hv1
    have hve' : ve' = ve := by
      rw [hvj, index_natCast, hje] at hve
      exact Option.some.inj hve
    subst hve'
    have hne : v ≠ p := by
      intro hvp
      rw [hvp, he] at hve
      cases hve
      exact hv hres
    have hvn : v.toNat < m.table_cnt.toNat := by omega
    have h1 := residentCount_write m.page_table m.table_cnt.toNat v ve' evictedEntry hve hvn
    have he2 : index (writePTE m.page_table v evictedEntry) p = some e := by
      rw [index_writePTE_ne _ _ hne]; exact he
    have h2 := residentCount_write (writePTE m.page_table v evictedEntry)
      m.table_cnt.toNat p e (freshEntry ve'.frame_number ts) he2 hpn
    have hres2 : resident (freshEntry ve'.frame_number ts) := by
      show (1 : Int) ≠ 0
      decide
    have hres3 : ¬ resident evictedEntry := by
      show ¬ (0 : Int) ≠ 0
      decide
    rw [if_pos hres, if_neg hres3] at h1
    rw [if_neg hv, if_pos hres2] at h2
    unfold frameTotal
    simp only
    omega

theorem run_step (scan : List PTE → Int → Int → Except Fault Int)
    (hscan : ScanSound scan) (accesses : List (Int × Int)) :
    ∀ (m m' : Mem), (∀ a ∈ accesses, a.1 < m.table_cnt) →
      run (process_page_access scan) m accesses = Except.ok m' →
      frameTotal m' = frameTotal m ∧ (0 ≤ m.frame_cnt → 0 ≤ m'.frame_cnt) := by
  induction accesses with
  | nil =>
    intro m m' _ h
    cases h
    exact ⟨rfl, fun h0 => h0⟩
  | cons a rest ih =>
    intro m m' hall h
    unfold run at h
    rw [bind_eq_ok] at h
    obtain ⟨r, hr, hrest⟩ := h
    obtain ⟨h1, h2, h3⟩ := access_step scan hscan m a.1 a.2 r
      (hall a (List.mem_cons_self a rest)) hr
    have hall' : ∀ b ∈ rest, b.1 < r.2.table_cnt := by
      intro b hb
      rw [h2]
      exact hall b (List.mem_cons_of_mem a hb)
    obtain ⟨h4, h5⟩ := ih r.2 m' hall' hrest
    exact ⟨h4.trans h1, fun h0 => h5 (h3 h0)⟩

/-- C8, as stated, fails in two ways.  A call on a page beyond `*table_cnt`
(page 2 of a table with `*table_cnt = 2`, two resident pages and two free
frames) is a fault served from the pool, and the sum of resident entries among
the first `*table_cnt` and `*frame_cnt` goes from 4 to 3, under each of the
three processors.  And from `*frame_cnt = -1` the initial sum is 1, while after
an eviction two entries are resident. -/
theorem frame_conservation_counterexample :
    index shortTableMem.page_table 2 = some evictedEntry ∧ ¬ resident evictedEntry ∧
    0 < shortTableMem.frame_cnt ∧ frameTotal shortTableMem = 4 ∧
    (∃ r, process_page_access_fifo shortTableMem 2 9 = Except.ok r ∧ frameTotal r.2 = 3) ∧
    (∃ r, process_page_access_lru shortTableMem 2 9 = Except.ok r ∧ frameTotal r.2 = 3) ∧
    (∃ r, process_page_access_lfu shortTableMem 2 9 = Except.ok r ∧ frameTotal r.2 = 3) ∧
    frameTotal negativePoolMem = 1 ∧
    (∃ m', run process_page_access_fifo negativePoolMem [(2, 9)] = Except.ok m' ∧
      residentCount m'.page_table m'.table_cnt.toNat = 2) :=
  ⟨rfl, by decide, by decide, by decide, ⟨_, rfl, by decide⟩, ⟨_, rfl, by decide⟩,
   ⟨_, rfl, by decide⟩, by decide, ⟨_, rfl, by decide⟩⟩

/-- C8 (amended): for each of the three access processors, every call on a page
of the table (`page_number < *table_cnt`) that returns, that is every hit, every
fault with a frame left in the pool and every fault with an empty pool in which
a victim is found, leaves the sum of the number of resident entries among the
first `*table_cnt` and `*frame_cnt` unchanged.  Hence along any run of such
calls that starts with `*frame_cnt ≥ 0` the number of resident entries never
exceeds the initial sum and equals it whenever the pool count is 0. -/
theorem frame_conservation :
    ∀ proc ∈ [process_page_access_fifo, process_page_access_lru, process_page_access_lfu],
      (∀ (m : Mem) (p ts : Int) (r : Int × Mem), p < m.table_cnt →
        proc m p ts = Except.ok r → frameTotal r.2 = frameTotal m) ∧
      (∀ (m : Mem) (accesses : List (Int × Int)) (m' : Mem), 0 ≤ m.frame_cnt →
        (∀ a ∈ accesses, a.1 < m.table_cnt) → run proc m accesses = Except.ok m' →
        (residentCount m'.page_table m'.table_cnt.toNat : Int) ≤ frameTotal m ∧
        (m'.frame_cnt = 0 →
          (residentCount m'.page_table m'.table_cnt.toNat : Int) = frameTotal m)) := by
  have main : ∀ scan, ScanSound scan →
      (∀ (m : Mem) (p ts : Int) (r : Int × Mem), p < m.table_cnt →
        process_page_access scan m p ts = Except.ok r → frameTotal r.2 = frameTotal m) ∧
      (∀ (m : Mem) (accesses : List (Int × Int)) (m' : Mem), 0 ≤ m.frame_cnt →
        (∀ a ∈ accesses, a.1 < m.table_cnt) →
        run (process_page_access scan) m accesses = Except.ok m' →
        (residentCount m'.page_table m'.table_cnt.toNat : Int) ≤ frameTotal m ∧
        (m'.frame_cnt = 0 →
          (residentCount m'.page_table m'.table_cnt.toNat : Int) = frameTotal m)) := by
    intro scan hscan
    constructor
    · intro m p ts r hp h
      exact (access_step scan hscan m p ts r hp h).1
    · intro m accesses m' h0 hall h
      obtain ⟨h1, h2⟩ := run_step scan hscan accesses m m' hall h
      have h3 := h2 h0
      unfold frameTotal at h1 ⊢
      constructor
      · omega
      · intro hz
        omega
  intro proc hproc
  simp only [List.mem_cons, List.mem_singleton, List.not_mem_nil, or_false] at hproc
  rcases hproc with rfl | rfl | rfl
  · exact main fifo_scan fifo_scan_sound
  · exact main lru_scan lru_scan_sound
  · exact main lfu_scan lfu_scan_sound

/-- Instance of `frame_conservation`: an eviction on the full sample table keeps
the total at 2, and a run of four LRU accesses from one free frame keeps the
number of resident pages at the initial total 3 once the pool is empty. -/
theorem frame_conservation_witness :
    frameTotal sampleMemFull = 2 ∧
    (∃ r, process_page_access_fifo sampleMemFull 2 9 = Except.ok r ∧
      frameTotal r.2 = frameTotal sampleMemFull) ∧
    frameTotal sampleMemFree = 3 ∧
    (∃ m', run process_page_access_lru sampleMemFree [(2, 9), (0, 10), (1, 11), (2, 12)] =
        Except.ok m' ∧ m'.frame_cnt = 0 ∧
      (residentCount m'.page_table m'.table_cnt.toNat : Int) = frameTotal sampleMemFree) :=
  ⟨by decide,
   ⟨_, rfl, (frame_conservation process_page_access_fifo (by simp)).1 sampleMemFull 2 9 _
      (by decide) rfl⟩,
   by decide,
   ⟨_, rfl, rfl, ((frame_conservation process_page_access_lru (by simp)).2 sampleMemFree
      [(2, 9), (0, 10), (1, 11), (2, 12)] _ (by decide) (by decide) rfl).2 rfl⟩⟩

/-! ## C9: the LRU driver and the reference replay -/

theorem copy_table_iterate (TABLEMAX : Nat) (s0 : Sim) (n : Nat)
    (hlen : n ≤ s0.page_table.length) (hmax : n ≤ TABLEMAX) :
    ∃ k, iterate n (copy_table_body TABLEMAX) s0 =
      Except.ok { s0 with local_page_table := s0.local_page_table ++ s0.page_table.take n,
                          frames_in_use := k } := by
  induction n with
  | zero => exact ⟨s0.frames_in_use, by simp⟩
  | succ n ih =>
    obtain ⟨k, hk⟩ := ih (Nat.le_of_succ_le hlen) (Nat.le_of_succ_le hmax)
    have hlt : n < s0.page_table.length := hlen
    have hread : readPTE s0.page_table (n : Int) = Except.ok s0.page_table[n] := by
      apply readPTE_of_index
      rw [index_natCast]
      exact List.getElem?_eq_getElem hlt
    have htake : s0.page_table.take (n + 1) = s0.page_table.take n ++ [s0.page_table[n]] := by
      rw [List.take_succ, List.getElem?_eq_getElem hlt]
      rfl
    rw [iterate_succ, hk, bind_ok]
    unfold copy_table_body
    simp only [hread, bind_ok]
    rw [if_neg (by omega : ¬ TABLEMAX ≤ n)]
    split
    · exact ⟨_, by rw [htake, ← List.append_assoc]; rfl⟩
    · exact ⟨_, by rw [htake, ← List.append_assoc]; rfl⟩

theorem copy_pool_iterate (POOLMAX : Nat) (s0 : Sim) (n : Nat)
    (hlen : n ≤ s0.frame_pool.length) (hmax : n ≤ POOLMAX) :
    iterate n (copy_pool_body POOLMAX) s0 =
      Except.ok { s0 with local_frame_pool := s0.local_frame_pool ++ s0.frame_pool.take n } := by
  induction n with
  | zero => simp
  | succ n ih =>
    have hk := ih (Nat.le_of_succ_le hlen) (Nat.le_of_succ_le hmax)
    have hlt : n < s0.frame_pool.length := hlen
    have hread : readFrame s0.frame_pool (n : Int) = Except.ok s0.frame_pool[n] := by
      apply readFrame_of_index
      rw [index_natCast]
      exact List.getElem?_eq_getElem hlt
    have htake : s0.frame_pool.take (n + 1) = s0.frame_pool.take n ++ [s0.frame_pool[n]] := by
      rw [List.take_succ, List.getElem?_eq_getElem hlt]
      rfl
    rw [iterate_succ, hk, bind_ok]
    unfold copy_pool_body
    simp only [hread, bind_ok]
    rw [if_neg (by omega : ¬ POOLMAX ≤ n), htake, ← List.append_assoc]
    rfl

theorem copies_done (TABLEMAX POOLMAX : Nat) (page_table : List PTE) (table_cnt : Int)
    (frame_pool : List Int) (frame_cnt : Int)
    (htc : table_cnt.toNat ≤ page_table.length) (htm : table_cnt.toNat ≤ TABLEMAX)
    (hfc : frame_cnt.toNat ≤ frame_pool.length) (hfm : frame_cnt.toNat ≤ POOLMAX) :
    ∃ k, (forLoop table_cnt (copy_table_body TABLEMAX)
        (initSim page_table table_cnt frame_pool frame_cnt) >>=
          forLoop frame_cnt (copy_pool_body POOLMAX)) =
      Except.ok (simOf page_table frame_pool
        (localCopy page_table table_cnt frame_pool frame_cnt) k 0 1) := by
  obtain ⟨k, hk⟩ := copy_table_iterate TABLEMAX
    (initSim page_table table_cnt frame_pool frame_cnt) table_cnt.toNat htc htm
  refine ⟨k, ?_⟩
  rw [forLoop_eq_iterate, hk, bind_ok, forLoop_eq_iterate, copy_pool_iterate POOLMAX _ _ hfc hfm]
  simp [simOf, localCopy, initSim]

theorem call_on_local_simOf (proc : Mem → Int → Int → Except Fault (Int × Mem))
    (T : List PTE) (F : List Int) (m : Mem) (k pf ts p : Int) (r : Int × Mem)
    (hr : proc m p ts = Except.ok r) :
    call_on_local proc (simOf T F m k pf ts) p = Except.ok (simOf T F r.2 k pf ts) := by
  unfold call_on_local
  have hm : ({ page_table := (simOf T F m k pf ts).local_page_table,
               table_cnt := (simOf T F m k pf ts).table_cnt,
               frame_pool := (simOf T F m k pf ts).local_frame_pool,
               frame_cnt := (simOf T F m k pf ts).local_frame_cnt } : Mem) = m := rfl
  rw [hm]
  show proc m p ts >>= _ = _
  rw [hr, bind_ok]
  rfl

theorem lru_loop_body_simOf (T : List PTE) (F : List Int) (m : Mem) (k pf ts : Int)
    (refs : List Int) (frame_cnt : Int) (n : Nat) (p : Int) (e : PTE) (r : Int × Mem)
    (hp : readRef refs n = Except.ok p) (he : index m.page_table p = some e)
    (hr : process_page_access_lru m p ts = Except.ok r) :
    ∃ k', lru_loop_body refs frame_cnt n (simOf T F m k pf ts) =
      Except.ok (simOf T F r.2 k' (if e.is_valid = 0 then wrapInt (pf + 1) else pf)
        (wrapInt (ts + 1))) := by
  unfold lru_loop_body
  have hread : readPTE (simOf T F m k pf ts).local_page_table p = Except.ok e :=
    readPTE_of_index he
  simp only [hp, hread, bind_ok]
  by_cases hz : e.is_valid = 0
  · simp only [if_pos hz]
    by_cases hu : (simOf T F m k pf ts).frames_in_use < frame_cnt
    · rw [if_pos hu]
      refine ⟨wrapInt (k + 1), ?_⟩
      have := call_on_local_simOf process_page_access_lru T F m (wrapInt (k + 1))
        (wrapInt (pf + 1)) ts p r hr
      simp only [simOf] at this ⊢
      rw [this]
      rfl
    · rw [if_neg hu]
      refine ⟨k, ?_⟩
      have := call_on_local_simOf process_page_access_lru T F m k
        (wrapInt (pf + 1)) ts p r hr
      simp only [simOf] at this ⊢
      rw [this]
      rfl
  · simp only [if_neg hz]
    refine ⟨k, ?_⟩
    rw [call_on_local_simOf process_page_access_lru T F m k pf ts p r hr]
    rfl

theorem replay_faults_succ (proc : Mem → Int → Int → Except Fault (Int × Mem)) (m0 : Mem)
    (refs : List Int) (n : Nat) :
    replay_faults proc m0 refs (n + 1) =
      replay_faults proc m0 refs n + (if fault_at proc m0 refs n then 1 else 0) := by
  unfold replay_faults
  rw [List.range_succ, List.filter_append, List.length_append]
  congr 1
  by_cases h : fault_at proc m0 refs n = true
  · simp [h]
  · simp [h]

theorem replay_faults_le (proc : Mem → Int → Int → Except Fault (Int × Mem)) (m0 : Mem)
    (refs : List Int) (n : Nat) : replay_faults proc m0 refs n ≤ n := by
  unfold replay_faults
  calc ((List.range n).filter (fault_at proc m0 refs)).length
      ≤ (List.range n).length := List.length_filter_le _ _
    _ = n := List.length_range n

theorem replay_state_succ {proc : Mem → Int → Int → Except Fault (Int × Mem)} {m0 : Mem}
    {refs : List Int} {n : Nat} {m' : Mem}
    (h : replay_state proc m0 refs (n + 1) = Except.ok m') :
    ∃ m p r, replay_state proc m0 refs n = Except.ok m ∧ readRef refs n = Except.ok p ∧
      proc m p ((n : Int) + 1) = Except.ok r ∧ m' = r.2 := by
  unfold replay_state at h
  simp only [bind_eq_ok] at h
  obtain ⟨m, hm, p, hp, r, hr, hfin⟩ := h
  cases hfin
  exact ⟨m, p, r, hm, hp, hr, rfl⟩

theorem readRef_eq_ok {refs : List Int} {i p : Int} (h : readRef refs i = Except.ok p) :
    index refs i = some p := by
  unfold readRef at h
  cases hi : index refs i with
  | none => simp [hi] at h
  | some q =>
    simp [hi] at h
    rw [h]

theorem lru_loop_replay (T : List PTE) (F : List Int) (m0 : Mem) (refs : List Int)
    (frame_cnt : Int) (n : Nat) :
    (n : Int) ≤ INT_MAX → ∀ m, replay_state process_page_access_lru m0 refs n = Except.ok m →
      ∀ k0, ∃ k, iterate n (lru_loop_body refs frame_cnt) (simOf T F m0 k0 0 1) =
        Except.ok (simOf T F m k (replay_faults process_page_access_lru m0 refs n : Nat)
          (wrapInt ((n : Int) + 1))) := by
  induction n with
  | zero =>
    intro _ m h k0
    cases h
    exact ⟨k0, rfl⟩
  | succ n ih =>
    intro hn m' h k0
    obtain ⟨m, p, r, hm, hp, hr, hfin⟩ := replay_state_succ h
    subst hfin
    have hn' : (n : Int) + 1 ≤ INT_MAX := by exact_mod_cast hn
    obtain ⟨k, hk⟩ := ih (by omega) m hm k0
    have hts : wrapInt ((n : Int) + 1) = (n : Int) + 1 := by
      apply wrapInt_of_isInt32
      unfold isInt32 INT_MIN
      constructor <;> omega
    obtain ⟨e, he, -⟩ := access_cases lru_scan m p _ r hr
    rw [hts] at hk
    obtain ⟨k', hk'⟩ := lru_loop_body_simOf T F m k
      (replay_faults process_page_access_lru m0 refs n : Nat) ((n : Int) + 1) refs frame_cnt
      n p e r hp he hr
    refine ⟨k', ?_⟩
    rw [iterate_succ, hk, bind_ok, hk']
    have hfault : fault_at process_page_access_lru m0 refs n = decide (e.is_valid = 0) := by
      unfold fault_at
      rw [hm, index_natCast]
      have := readRef_eq_ok hp
      rw [index_natCast] at this
      simp only [this, he]
    have hle := replay_faults_le process_page_access_lru m0 refs n
    have hpf : (if e.is_valid = 0 then
          wrapInt (((replay_faults process_page_access_lru m0 refs n : Nat) : Int) + 1)
        else ((replay_faults process_page_access_lru m0 refs n : Nat) : Int)) =
        ((replay_faults process_page_access_lru m0 refs (n + 1) : Nat) : Int) := by
      rw [replay_faults_succ, hfault]
      by_cases hz : e.is_valid = 0
      · rw [if_pos hz]
        simp only [hz, decide_True, if_true]
        rw [wrapInt_of_isInt32]
        · push_cast; rfl
        · unfold isInt32 INT_MIN
          unfold INT_MAX at hn'
          constructor <;> omega
      · rw [if_neg hz]
        simp [hz]
    rw [hpf]
    push_cast
    rfl

/-- C9: when both copies fit (`table_cnt` and `frame_cnt` within the caller's
arrays and within `TABLEMAX`, `POOLMAX`), `reference_cnt` is an `int`, and the
replay of the reference string on the private copy is defined (every reference
a valid index, every eviction finding a victim), `count_page_faults_lru` returns
exactly the number of positions whose page is not resident in the replayed
state; the loop hands every reference to `process_page_access_lru`, reference
`i` with timestamp `i + 1`, so that its local state ends as the replayed
state. -/
theorem lru_driver_replay (TABLEMAX POOLMAX : Nat) (page_table : List PTE) (table_cnt : Int)
    (reference_string : List Int) (reference_cnt : Int) (frame_pool : List Int)
    (frame_cnt : Int) (m : Mem)
    (htc : table_cnt.toNat ≤ page_table.length) (htm : table_cnt.toNat ≤ TABLEMAX)
    (hfc : frame_cnt.toNat ≤ frame_pool.length) (hfm : frame_cnt.toNat ≤ POOLMAX)
    (hrc : reference_cnt ≤ INT_MAX)
    (hrun : replay_state process_page_access_lru
      (localCopy page_table table_cnt frame_pool frame_cnt) reference_string
      reference_cnt.toNat = Except.ok m) :
    count_page_faults_lru TABLEMAX POOLMAX page_table table_cnt reference_string
        reference_cnt frame_pool frame_cnt =
      Except.ok (((replay_faults process_page_access_lru
        (localCopy page_table table_cnt frame_pool frame_cnt) reference_string
        reference_cnt.toNat : Nat) : Int), page_table, frame_pool) ∧
    ∃ k0 k, forLoop reference_cnt (lru_loop_body reference_string frame_cnt)
        (simOf page_table frame_pool (localCopy page_table table_cnt frame_pool frame_cnt)
          k0 0 1) =
      Except.ok (simOf page_table frame_pool m k
        (replay_faults process_page_access_lru
          (localCopy page_table table_cnt frame_pool frame_cnt) reference_string
          reference_cnt.toNat : Nat)
        (wrapInt ((reference_cnt.toNat : Int) + 1))) := by
  obtain ⟨k0, hcopy⟩ := copies_done TABLEMAX POOLMAX page_table table_cnt frame_pool
    frame_cnt htc htm hfc hfm
  have hn : (reference_cnt.toNat : Int) ≤ INT_MAX := by
    unfold INT_MAX at hrc ⊢
    omega
  obtain ⟨k, hloop⟩ := lru_loop_replay page_table frame_pool
    (localCopy page_table table_cnt frame_pool frame_cnt) reference_string frame_cnt
    reference_cnt.toNat hn m hrun k0
  refine ⟨?_, k0, k, hloop⟩
  rw [bind_eq_ok] at hcopy
  obtain ⟨s1, h1, h2⟩ := hcopy
  unfold count_page_faults_lru
  simp only [h1, h2, bind_ok]
  rw [forLoop_eq_iterate, hloop]
  rfl

/-- Instance of `lru_driver_replay`: the sample table with one free frame and
the references 2, 0, 2, 1; the only fault is the first reference. -/
theorem lru_driver_replay_witness :
    count_page_faults_lru 4 4 sampleTable 3 [2, 0, 2, 1] 4 [5, 6] 1 =
      Except.ok (1, sampleTable, [5, 6]) ∧
    replay_faults process_page_access_lru (localCopy sampleTable 3 [5, 6] 1)
      [2, 0, 2, 1] 4 = 1 :=
  ⟨(lru_driver_replay 4 4 sampleTable 3 [2, 0, 2, 1] 4 [5, 6] 1 _ (by decide) (by decide)
      (by decide) (by decide) (by decide) rfl).1,
   by decide⟩

/-! ## C10: the FIFO driver against the replay -/

/-- C10 fails on the code: with two absent pages, one free frame and the
references 1, 1 the replay through `process_page_access_fifo` is defined and
has one fault, and the LRU driver returns 1, but `count_page_faults_fifo`
returns 2: at the first fault `frames_in_use < frame_cnt` holds, the driver
only raises `frames_in_use`, the processor is not called and page 1 stays
absent. -/
theorem fifo_driver_skips_processor :
    count_page_faults_fifo 4 4 emptyTable 2 [1, 1] 2 [7] 1 =
      Except.ok (2, emptyTable, [7]) ∧
    (∃ m, replay_state process_page_access_fifo (localCopy emptyTable 2 [7] 1) [1, 1] 2 =
      Except.ok m) ∧
    replay_faults process_page_access_fifo (localCopy emptyTable 2 [7] 1) [1, 1] 2 = 1 ∧
    count_page_faults_lru 4 4 emptyTable 2 [1, 1] 2 [7] 1 =
      Except.ok (1, emptyTable, [7]) :=
  ⟨rfl, ⟨_, rfl⟩, by decide, rfl⟩

/-! ## C11: Scenario A on the FIFO driver -/

/-- C11 fails on the code for the pool of 4 frames: on the reference string
1,2,3,4,1,2,5,1,2,3,4,5 and six absent pages `count_page_faults_fifo` returns 9
with 3 frames and 9 again, not 10, with 4 frames, while the replay that hands
every reference to `process_page_access_fifo` has 9 and 10 faults. -/
theorem belady_fifo_counts :
    count_page_faults_fifo 6 4 (absentTable 6) 6 beladyRefs 12 [10, 11, 12] 3 =
      Except.ok (9, absentTable 6, [10, 11, 12]) ∧
    count_page_faults_fifo 6 4 (absentTable 6) 6 beladyRefs 12 [10, 11, 12, 13] 4 =
      Except.ok (9, absentTable 6, [10, 11, 12, 13]) ∧
    replay_faults process_page_access_fifo (localCopy (absentTable 6) 6 [10, 11, 12] 3)
      beladyRefs 12 = 9 ∧
    replay_faults process_page_access_fifo (localCopy (absentTable 6) 6 [10, 11, 12, 13] 4)
      beladyRefs 12 = 10 :=
  ⟨rfl, rfl, by decide, by decide⟩

/-! ## C13, C16, C20: what the scans select -/

theorem scanResult_none {K : Type} [LinearOrder K] {key : PTE → K} {t : List PTE}
    {n : Nat} {k0 k : K} {v : Int} (h : ScanResult key t n k0 k v)
    (hno : ∀ i e, i < n → t[i]? = some e → resident e → k0 ≤ key e) : v = -1 := by
  rcases h with ⟨hp, -, -⟩ | ⟨j, e, -, hj, hje, hres, hkey, hlt, -, -⟩
  · exact hp
  · have := hno j e hj hje hres
    rw [hkey] at this
    exact absurd hlt (not_lt.mpr this)

theorem fifo_scan_none (t : List PTE) (n ts : Int) (hcap : n.toNat ≤ t.length)
    (hno : ∀ i e, i < n.toNat → t[i]? = some e → resident e → ts ≤ e.arrival_timestamp) :
    fifo_scan t n ts = Except.ok (-1) := by
  obtain ⟨v, hv⟩ := fifo_scan_total t n ts hcap
  obtain ⟨k, hk⟩ := fifo_scan_spec hv
  rw [hv, scanResult_none hk hno]

theorem lru_scan_none (t : List PTE) (n ts : Int) (hcap : n.toNat ≤ t.length)
    (hno : ∀ i e, i < n.toNat → t[i]? = some e → resident e →
      ts ≤ e.last_access_timestamp) :
    lru_scan t n ts = Except.ok (-1) := by
  obtain ⟨v, hv⟩ := lru_scan_total t n ts hcap
  obtain ⟨k, hk⟩ := lru_scan_spec hv
  rw [hv, scanResult_none hk hno]

theorem lfu_scan_none (t : List PTE) (n ts : Int) (hcap : n.toNat ≤ t.length)
    (hno : ∀ i e, i < n.toNat → t[i]? = some e → ¬ resident e) :
    lfu_scan t n ts = Except.ok (-1) := by
  obtain ⟨v, hv⟩ := lfu_scan_total t n ts hcap
  obtain ⟨k, hk⟩ := lfu_scan_spec hv
  rw [hv, scanResult_none hk (fun i e hi hie hres => absurd hres (hno i e hi hie))]

/-- C13, as stated, fails: on a table whose only page is absent, with an empty
pool, each access processor ends its scan with the sentinel `-1` and goes on to
read `page_table[-1]` (the fault records the index used); no "no victim
available" error exists in the code. -/
theorem no_victim_uses_sentinel_counterexample :
    fifo_scan [evictedEntry] 1 1 = Except.ok (-1) ∧
    process_page_access_fifo
      { page_table := [evictedEntry], table_cnt := 1, frame_pool := [], frame_cnt := 0 } 0 1 =
      Except.error (Fault.tableIndex (-1)) ∧
    process_page_access_lru
      { page_table := [evictedEntry], table_cnt := 1, frame_pool := [], frame_cnt := 0 } 0 1 =
      Except.error (Fault.tableIndex (-1)) ∧
    process_page_access_lfu
      { page_table := [evictedEntry], table_cnt := 1, frame_pool := [], frame_cnt := 0 } 0 1 =
      Except.error (Fault.tableIndex (-1)) :=
  ⟨rfl, rfl, rfl, rfl⟩

/-- C13 (amended): for each of the three access processors, when no entry among
the first `*table_cnt` is resident the victim scan performed on a fault with an
empty pool ends with the sentinel index `-1`, that is with no victim. -/
theorem no_victim_scan (t : List PTE) (n ts : Int) (hcap : n.toNat ≤ t.length)
    (hnone : ∀ i e, i < n.toNat → t[i]? = some e → ¬ resident e) :
    fifo_scan t n ts = Except.ok (-1) ∧ lru_scan t n ts = Except.ok (-1) ∧
    lfu_scan t n ts = Except.ok (-1) :=
  ⟨fifo_scan_none t n ts hcap (fun i e hi hie hres => absurd hres (hnone i e hi hie)),
   lru_scan_none t n ts hcap (fun i e hi hie hres => absurd hres (hnone i e hi hie)),
   lfu_scan_none t n ts hcap hnone⟩

/-- Instance of `no_victim_scan`: two absent pages scanned at time 5. -/
theorem no_victim_scan_witness :
    fifo_scan emptyTable 2 5 = Except.ok (-1) ∧ lru_scan emptyTable 2 5 = Except.ok (-1) ∧
    lfu_scan emptyTable 2 5 = Except.ok (-1) :=
  no_victim_scan emptyTable 2 5 (by decide)
    (by
      intro i e hi hie
      have hi2 : i < 2 := hi
      interval_cases i <;> simp [emptyTable] at hie <;> subst hie <;> decide)

/-- C16, as stated, fails: there is no page table, in whatever index order,
whose resident entries arrived before `current_timestamp` with reference counts
between 1 and `INT_MAX - 1` and on which the scan of `process_page_access_lfu`
selects an entry other than the earliest arrival among the resident entries of
least reference count. -/
theorem lfu_tie_break_bug_counterexample :
    ¬ ∃ (t : List PTE) (n ts : Int) (v : Nat),
      n.toNat ≤ t.length ∧
      (∀ i e, i < n.toNat → t[i]? = some e → resident e →
        e.arrival_timestamp < ts ∧ 1 ≤ e.reference_count ∧
          e.reference_count ≤ INT_MAX - 1) ∧
      (∃ i j ei ej, i < j ∧ j < n.toNat ∧ t[i]? = some ei ∧ t[j]? = some ej ∧
        resident ei ∧ resident ej ∧ ej.arrival_timestamp < ei.arrival_timestamp) ∧
      lfu_scan t n ts = Except.ok (v : Int) ∧ NotEarliestOfLeastCount t n.toNat v := by
  rintro ⟨t, n, ts, v, -, hhyp, -, hscan, ve, hve, i, e, hi, hie, hres, hless⟩
  obtain ⟨k, hk⟩ := lfu_scan_spec hscan
  rcases hk with ⟨hp, -, -⟩ | ⟨j, e1, hp, -, hje, -, hkey, -, hall, -⟩
  · omega
  · have hjv : j = v := by omega
    subst hjv
    rw [hve] at hje
    cases hje
    have := hall i e hi hie hres
    rw [← hkey] at this
    unfold lfuKey at this
    rw [Prod.Lex.le_iff] at this
    simp only at this
    omega

/-- C16 (amended): for every page table whose resident entries arrived before
`current_timestamp` with reference counts between 1 and `INT_MAX - 1`, whatever
the index order, the single-pass scan of `process_page_access_lfu` selects a
resident entry of least reference count that is the earliest arrival among the
resident entries of that count. -/
theorem lfu_scan_selects_earliest (t : List PTE) (n ts : Int)
    (hcap : n.toNat ≤ t.length)
    (hex : ∃ i e, i < n.toNat ∧ t[i]? = some e ∧ resident e)
    (hhyp : ∀ i e, i < n.toNat → t[i]? = some e → resident e →
      e.arrival_timestamp < ts ∧ 1 ≤ e.reference_count ∧
        e.reference_count ≤ INT_MAX - 1) :
    ∃ v : Nat, lfu_scan t n ts = Except.ok (v : Int) ∧ LfuVictim t n.toNat v := by
  obtain ⟨v, hs⟩ := lfu_scan_total t n ts hcap
  obtain ⟨k, hk⟩ := lfu_scan_spec hs
  obtain ⟨i, e, hi, hie, hres⟩ := hex
  have hbelow : lfuKey e < toLex (INT_MAX, ts) := by
    unfold lfuKey
    rw [Prod.Lex.lt_iff]
    have := hhyp i e hi hie hres
    show e.reference_count < INT_MAX ∨
      e.reference_count = INT_MAX ∧ e.arrival_timestamp < ts
    omega
  obtain ⟨j, hvj, hmin⟩ := scanResult_victim hk ⟨i, e, hi, hie, hres, hbelow⟩
  subst hvj
  exact ⟨j, hs, lfuVictim_of_firstMin hmin⟩

/-- Instance of `lfu_scan_selects_earliest`: in the tie table the later arrival
is stored first, and the scan selects page 1, the earlier arrival. -/
theorem lfu_scan_selects_earliest_witness :
    lfu_scan tieTable 3 9 = Except.ok 1 ∧
    ∃ v : Nat, lfu_scan tieTable 3 9 = Except.ok (v : Int) ∧
      LfuVictim tieTable (3 : Int).toNat v :=
  ⟨rfl, lfu_scan_selects_earliest tieTable 3 9 (by decide)
    ⟨0, _, by decide, rfl, by decide⟩
    (by
      intro i e hi hie hres
      have hi3 : i < 3 := hi
      interval_cases i <;> simp [tieTable] at hie <;> subst hie
      · decide
      · decide
      · exact absurd hres (by decide))⟩

/-- C20: in `process_page_access_fifo` (resp. `process_page_access_lru`), when
every resident entry among the first `*table_cnt` has `arrival_timestamp`
(resp. `last_access_timestamp`) at or after `current_timestamp`, the scan made
on a fault with an empty pool selects nothing and its victim index stays `-1`,
resident entries or not.  A driver, which starts at timestamp 1, meets this on a
table that already holds a resident page with timestamps 2 and 3 and an empty
pool: the first reference to the absent page 1 ends in an access to
`page_table[-1]`. -/
theorem stale_timestamps_select_nothing (t : List PTE) (n ts : Int)
    (hcap : n.toNat ≤ t.length) :
    ((∀ i e, i < n.toNat → t[i]? = some e → resident e → ts ≤ e.arrival_timestamp) →
      fifo_scan t n ts = Except.ok (-1)) ∧
    ((∀ i e, i < n.toNat → t[i]? = some e → resident e → ts ≤ e.last_access_timestamp) →
      lru_scan t n ts = Except.ok (-1)) ∧
    count_page_faults_fifo 4 4 prepopulatedTable 2 [1] 1 [] 0 =
      Except.error (Fault.tableIndex (-1)) ∧
    count_page_faults_lru 4 4 prepopulatedTable 2 [1] 1 [] 0 =
      Except.error (Fault.tableIndex (-1)) :=
  ⟨fifo_scan_none t n ts hcap, lru_scan_none t n ts hcap, rfl, rfl⟩

/-- Instance of `stale_timestamps_select_nothing`: the pre-populated table
scanned at the driver's first timestamp, with page 0 resident. -/
theorem stale_timestamps_select_nothing_witness :
    resident sampleEntry0 ∧
    fifo_scan prepopulatedTable 2 1 = Except.ok (-1) ∧
    lru_scan prepopulatedTable 2 1 = Except.ok (-1) :=
  ⟨by decide,
   (stale_timestamps_select_nothing prepopulatedTable 2 1 (by decide)).1
    (by
      intro i e hi hie hres
      have hi2 : i < 2 := hi
      interval_cases i <;> simp [prepopulatedTable] at hie <;> subst hie
      · decide
      · exact absurd hres (by decide)),
   (stale_timestamps_select_nothing prepopulatedTable 2 1 (by decide)).2.1
    (by
      intro i e hi hie hres
      have hi2 : i < 2 := hi
      interval_cases i <;> simp [prepopulatedTable] at hie <;> subst hie
      · decide
      · exact absurd hres (by decide))⟩

/-! ## C17: what an access leaves untouched -/

theorem access_frame (scan : List PTE → Int → Int → Except Fault Int) (m : Mem)
    (p ts : Int) (r : Int × Mem) (h : process_page_access scan m p ts = Except.ok r) :
    AccessFrame scan m p ts r := by
  obtain ⟨e, he, hcase⟩ := access_cases scan m p ts r h
  rcases hcase with ⟨hv, hr⟩ | ⟨hv, hc, f, -, hr⟩ | ⟨hv, hc, v, ve, hs, -, hr⟩
  · subst hr
    exact ⟨rfl, rfl, e, he, Or.inl ⟨hv, rfl, fun j hj =>
      index_writePTE_ne _ _ (Ne.symm hj)⟩⟩
  · subst hr
    exact ⟨rfl, rfl, e, he, Or.inr (Or.inl ⟨hv, hc, rfl, fun j hj =>
      index_writePTE_ne _ _ (Ne.symm hj)⟩)⟩
  · subst hr
    refine ⟨rfl, rfl, e, he, Or.inr (Or.inr ⟨hv, hc, rfl, v, hs, fun j hj hjv => ?_⟩)⟩
    show index (writePTE (writePTE m.page_table v evictedEntry) p _) j = _
    rw [index_writePTE_ne _ _ (Ne.symm hj), index_writePTE_ne _ _ (Ne.symm hjv)]

/-- C17: for each of the three access processors and every call that returns,
the table entries other than `page_number` and, on an eviction, the chosen
victim are unchanged; the `frame_pool` array is not written; `*table_cnt` is
unchanged; `*frame_cnt` goes down by exactly 1 on a fault with a frame left in
the pool and is unchanged on a hit and on an eviction, the evicted frame going
to the new page and not back to the pool. -/
theorem access_leaves_rest (m : Mem) (p ts : Int) (r : Int × Mem) :
    (process_page_access_fifo m p ts = Except.ok r → AccessFrame fifo_scan m p ts r) ∧
    (process_page_access_lru m p ts = Except.ok r → AccessFrame lru_scan m p ts r) ∧
    (process_page_access_lfu m p ts = Except.ok r → AccessFrame lfu_scan m p ts r) :=
  ⟨access_frame fifo_scan m p ts r, access_frame lru_scan m p ts r,
   access_frame lfu_scan m p ts r⟩

/-- Instance of `access_leaves_rest`: the eviction made for page 2 of the full
sample table; FIFO and LFU return frame 9 of their victim, page 1, and LRU
returns frame 4 of its victim, page 0. -/
theorem access_leaves_rest_witness :
    (∃ m', process_page_access_fifo sampleMemFull 2 9 = Except.ok (9, m') ∧
      AccessFrame fifo_scan sampleMemFull 2 9 (9, m')) ∧
    (∃ m', process_page_access_lru sampleMemFull 2 9 = Except.ok (4, m') ∧
      AccessFrame lru_scan sampleMemFull 2 9 (4, m')) ∧
    (∃ m', process_page_access_lfu sampleMemFull 2 9 = Except.ok (9, m') ∧
      AccessFrame lfu_scan sampleMemFull 2 9 (9, m')) :=
  ⟨⟨_, rfl, (access_leaves_rest sampleMemFull 2 9 _).1 rfl⟩,
   ⟨_, rfl, (access_leaves_rest sampleMemFull 2 9 _).2.1 rfl⟩,
   ⟨_, rfl, (access_leaves_rest sampleMemFull 2 9 _).2.2 rfl⟩⟩

/-! ## C14: well-formed entries stay well-formed -/

theorem getElem?_writePTE (t : List PTE) (p : Int) (a old : PTE)
    (hp : index t p = some old) (j : Nat) :
    (writePTE t p a)[j]? = if (j : Int) = p then some a else t[j]? := by
  by_cases h : (j : Int) = p
  · rw [if_pos h, ← index_natCast, h]
    exact index_writePTE_same a hp
  · rw [if_neg h, ← index_natCast, index_writePTE_ne _ _ (Ne.symm h), index_natCast]

theorem access_wellFormed (scan : List PTE → Int → Int → Except Fault Int)
    (hscan : ScanSound scan) (m : Mem) (p ts : Int) (r : Int × Mem)
    (hwf : wellFormedTable m.page_table)
    (hpool : ∀ k f, k < m.frame_cnt.toNat → m.frame_pool[k]? = some f → 0 ≤ f)
    (hts0 : 0 ≤ ts)
    (hts : ∀ (j : Nat) (e : PTE), m.page_table[j]? = some e → resident e →
      e.arrival_timestamp ≤ ts ∧ e.last_access_timestamp ≤ ts)
    (hrc : ∀ (j : Nat) (e : PTE), m.page_table[j]? = some e → resident e →
      e.reference_count < INT_MAX)
    (h : process_page_access scan m p ts = Except.ok r) :
    wellFormedTable r.2.page_table := by
  have hfresh : ∀ f, 0 ≤ f → wellFormed (freshEntry f ts) := by
    intro f hf
    right
    refine ⟨?_, hf, hts0, le_refl _, le_refl _⟩
    show (1 : Int) ≠ 0
    decide
  have hevicted : wellFormed evictedEntry := by decide
  obtain ⟨e, he, hcase⟩ := access_cases scan m p ts r h
  have hpe : m.page_table[p.toNat]? = some e := (index_eq_some he).2.2
  rcases hcase with ⟨hv, hr⟩ | ⟨hv, hc, f, hf, hr⟩ | ⟨hv, hc, v, ve, hs, hve, hr⟩
  · subst hr
    intro j e' hj
    replace hj : (writePTE m.page_table p (hitEntry e ts))[j]? = some e' := hj
    rw [getElem?_writePTE _ _ _ _ he] at hj
    split at hj
    · cases hj
      rcases hwf _ e hpe with ⟨hn, -⟩ | ⟨-, h1, h2, -, h4⟩
      · exact absurd hv hn
      · have h5 := hrc _ e hpe hv
        have h6 := (hts _ e hpe hv).1
        right
        refine ⟨hv, h1, h2, h6, ?_⟩
        show 1 ≤ wrapInt (e.reference_count + 1)
        rw [wrapInt_of_isInt32]
        · omega
        · unfold isInt32 INT_MIN
          unfold INT_MAX at h5 ⊢
          constructor <;> omega
    · exact hwf j e' hj
  · subst hr
    intro j e' hj
    replace hj : (writePTE m.page_table p (freshEntry f ts))[j]? = some e' := hj
    rw [getElem?_writePTE _ _ _ _ he] at hj
    split at hj
    · cases hj
      apply hfresh
      obtain ⟨h0, -, hget⟩ := index_eq_some hf
      exact hpool _ f (by omega) hget
    · exact hwf j e' hj
  · subst hr
    have hv1 : v ≠ -1 := by
      intro hc1
      rw [hc1] at hve
      simp [index] at hve
    obtain ⟨jv, ve', hvj, -, hje, hres⟩ := hscan _ _ _ _ hs hv1
    have hve' : ve' = ve := by
      rw [hvj, index_natCast, hje] at hve
      exact Option.some.inj hve
    subst hve'
    have hne : v ≠ p := by
      intro hvp
      rw [hvp, he] at hve
      cases hve
      exact hv hres
    have he2 : index (writePTE m.page_table v evictedEntry) p = some e := by
      rw [index_writePTE_ne _ _ hne]; exact he
    intro j e' hj
    replace hj : (writePTE (writePTE m.page_table v evictedEntry) p
        (freshEntry ve'.frame_number ts))[j]? = some e' := hj
    rw [getElem?_writePTE _ _ _ _ he2] at hj
    split at hj
    · cases hj
      apply hfresh
      rcases hwf _ ve' hje with ⟨hn, -⟩ | ⟨-, h1, -⟩
      · exact absurd hres hn
      · exact h1
    · rw [getElem?_writePTE _ _ _ _ hve] at hj
      split at hj
      · cases hj
        exact hevicted
      · exact hwf j e' hj

/-- C14: if every entry of the table is well-formed, every frame in the pool is
at least 0, `current_timestamp` is at least 0 and at least every timestamp of a
resident entry, and the reference counts of resident entries are below
`INT_MAX`, then after a call of any of the three access processors that returns
(so that a victim was found when one was needed) every entry of the table is
well-formed again. -/
theorem wellFormed_preserved (m : Mem) (p ts : Int) (r : Int × Mem)
    (hwf : wellFormedTable m.page_table)
    (hpool : ∀ k f, k < m.frame_cnt.toNat → m.frame_pool[k]? = some f → 0 ≤ f)
    (hts0 : 0 ≤ ts)
    (hts : ∀ (j : Nat) (e : PTE), m.page_table[j]? = some e → resident e →
      e.arrival_timestamp ≤ ts ∧ e.last_access_timestamp ≤ ts)
    (hrc : ∀ (j : Nat) (e : PTE), m.page_table[j]? = some e → resident e →
      e.reference_count < INT_MAX) :
    (process_page_access_fifo m p ts = Except.ok r → wellFormedTable r.2.page_table) ∧
    (process_page_access_lru m p ts = Except.ok r → wellFormedTable r.2.page_table) ∧
    (process_page_access_lfu m p ts = Except.ok r → wellFormedTable r.2.page_table) :=
  ⟨access_wellFormed fifo_scan fifo_scan_sound m p ts r hwf hpool hts0 hts hrc,
   access_wellFormed lru_scan lru_scan_sound m p ts r hwf hpool hts0 hts hrc,
   access_wellFormed lfu_scan lfu_scan_sound m p ts r hwf hpool hts0 hts hrc⟩

theorem forall_getElem?_of_mem {α : Type} {t : List α} {P : α → Prop}
    (h : ∀ e ∈ t, P e) : ∀ (j : Nat) (e : α), t[j]? = some e → P e :=
  fun _ e hj => h e (List.getElem?_mem hj)

/-- Instance of `wellFormed_preserved`: the eviction made for page 2 of the
full sample table at time 9 by each of the three processors. -/
theorem wellFormed_preserved_witness :
    wellFormedTable sampleMemFull.page_table ∧
    (∃ m', process_page_access_fifo sampleMemFull 2 9 = Except.ok (9, m') ∧
      wellFormedTable m'.page_table) ∧
    (∃ m', process_page_access_lru sampleMemFull 2 9 = Except.ok (4, m') ∧
      wellFormedTable m'.page_table) ∧
    (∃ m', process_page_access_lfu sampleMemFull 2 9 = Except.ok (9, m') ∧
      wellFormedTable m'.page_table) :=
  have hwf : wellFormedTable sampleMemFull.page_table :=
    forall_getElem?_of_mem (by decide)
  have hpool : ∀ (k : Nat) (f : Int), k < sampleMemFull.frame_cnt.toNat →
      sampleMemFull.frame_pool[k]? = some f → 0 ≤ f :=
    fun k _ hk _ => absurd hk (Nat.not_lt_zero k)
  have hts : ∀ (j : Nat) (e : PTE), sampleMemFull.page_table[j]? = some e → resident e →
      e.arrival_timestamp ≤ 9 ∧ e.last_access_timestamp ≤ 9 :=
    forall_getElem?_of_mem (by decide)
  have hrc : ∀ (j : Nat) (e : PTE), sampleMemFull.page_table[j]? = some e → resident e →
      e.reference_count < INT_MAX :=
    forall_getElem?_of_mem (by decide)
  ⟨hwf,
   ⟨_, rfl, (wellFormed_preserved sampleMemFull 2 9 _ hwf hpool (by decide) hts hrc).1 rfl⟩,
   ⟨_, rfl, (wellFormed_preserved sampleMemFull 2 9 _ hwf hpool (by decide) hts hrc).2.1 rfl⟩,
   ⟨_, rfl, (wellFormed_preserved sampleMemFull 2 9 _ hwf hpool (by decide) hts hrc).2.2 rfl⟩⟩

/-! ## C19: frames stay distinct -/

theorem access_framesDistinct (scan : List PTE → Int → Int → Except Fault Int)
    (hscan : ScanSound scan) (n : Nat) (m : Mem) (p ts : Int) (r : Int × Mem)
    (hn : m.table_cnt.toNat ≤ n) (hd : FramesDistinct n m)
    (h : process_page_access scan m p ts = Except.ok r) :
    FramesDistinct n r.2 := by
  obtain ⟨hd1, hd2, hd3⟩ := hd
  obtain ⟨e, he, hcase⟩ := access_cases scan m p ts r h
  rcases hcase with ⟨hv, hr⟩ | ⟨hv, hc, f, hf, hr⟩ | ⟨hv, hc, v, ve, hs, hve, hr⟩
  · -- hit: residency and frames are those of the old table
    subst hr
    have hpe : m.page_table[p.toNat]? = some e := (index_eq_some he).2.2
    have hp0 := (index_eq_some he).1
    have old : ∀ (j : Nat) (e' : PTE),
        (writePTE m.page_table p (hitEntry e ts))[j]? = some e' →
        ∃ e0, m.page_table[j]? = some e0 ∧ (resident e' → resident e0) ∧
          e'.frame_number = e0.frame_number := by
      intro j e' hj
      rw [getElem?_writePTE _ _ _ _ he] at hj
      split at hj
      · rename_i hjp
        cases hj
        have : j = p.toNat := by omega
        exact ⟨e, this ▸ hpe, fun hres => hres, rfl⟩
      · exact ⟨e', hj, fun hres => hres, rfl⟩
    refine ⟨?_, hd2, ?_⟩
    · intro i j ei ej hi hj hie hje hri hrj heq
      obtain ⟨ei0, h1, h2, h3⟩ := old i ei hie
      obtain ⟨ej0, h4, h5, h6⟩ := old j ej hje
      exact hd1 i j ei0 ej0 hi hj h1 h4 (h2 hri) (h5 hrj) (by rw [← h3, ← h6]; exact heq)
    · intro a i fa ei ha hfa hi hie hri
      obtain ⟨ei0, h1, h2, h3⟩ := old i ei hie
      rw [h3]
      exact hd3 a i fa ei0 ha hfa hi h1 (h2 hri)
  · -- fault served from the pool
    subst hr
    obtain ⟨hc0, -, hfget⟩ := index_eq_some hf
    have hlast : (m.frame_cnt - 1).toNat < m.frame_cnt.toNat := by omega
    have new : ∀ (j : Nat) (e' : PTE),
        (writePTE m.page_table p (freshEntry f ts))[j]? = some e' →
        (e'.frame_number = f ∧ (j : Int) = p) ∨ (m.page_table[j]? = some e' ∧ (j : Int) ≠ p) := by
      intro j e' hj
      rw [getElem?_writePTE _ _ _ _ he] at hj
      split at hj
      · rename_i hjp
        cases hj
        exact Or.inl ⟨rfl, hjp⟩
      · rename_i hjp
        exact Or.inr ⟨hj, hjp⟩
    refine ⟨?_, ?_, ?_⟩
    · intro i j ei ej hi hj hie hje hri hrj heq
      rcases new i ei hie with ⟨h1, h2⟩ | ⟨h1, h2⟩ <;>
        rcases new j ej hje with ⟨h3, h4⟩ | ⟨h3, h4⟩
      · omega
      · exact absurd (by rw [← heq, h1]) (hd3 _ j f ej hlast hfget hj h3 hrj)
      · exact absurd (by rw [heq, h3]) (hd3 _ i f ei hlast hfget hi h1 hri)
      · exact hd1 i j ei ej hi hj h1 h3 hri hrj heq
    · intro a b fa fb ha hb hfa hfb heq
      have ha' : a < m.frame_cnt.toNat := by
        have : a < (m.frame_cnt - 1).toNat := ha
        omega
      have hb' : b < m.frame_cnt.toNat := by
        have : b < (m.frame_cnt - 1).toNat := hb
        omega
      exact hd2 a b fa fb ha' hb' hfa hfb heq
    · intro a i fa ei ha hfa hi hie hri
      have ha1 : a < (m.frame_cnt - 1).toNat := ha
      have ha' : a < m.frame_cnt.toNat := by omega
      rcases new i ei hie with ⟨h1, -⟩ | ⟨h1, -⟩
      · rw [h1]
        intro hfa2
        have := hd2 a _ fa f ha' hlast hfa hfget hfa2
        omega
      · exact hd3 a i fa ei ha' hfa hi h1 hri
  · -- fault served by eviction
    subst hr
    have hv1 : v ≠ -1 := by
      intro hc1
      rw [hc1] at hve
      simp [index] at hve
    obtain ⟨jv, ve', hvj, hjn, hje, hres⟩ := hscan _ _ _ _ hs hv1
    have hve' : ve' = ve := by
      rw [hvj, index_natCast, hje] at hve
      exact Option.some.inj hve
    subst hve'
    have hjvn : jv < n := by omega
    have hne : v ≠ p := by
      intro hvp
      rw [hvp, he] at hve
      cases hve
      exact hv hres
    have he2 : index (writePTE m.page_table v evictedEntry) p = some e := by
      rw [index_writePTE_ne _ _ hne]; exact he
    have new : ∀ (j : Nat) (e' : PTE),
        (writePTE (writePTE m.page_table v evictedEntry) p
          (freshEntry ve'.frame_number ts))[j]? = some e' → resident e' →
        (e'.frame_number = ve'.frame_number ∧ (j : Int) = p) ∨
          (m.page_table[j]? = some e' ∧ j ≠ jv) := by
      intro j e' hj hrj
      rw [getElem?_writePTE _ _ _ _ he2] at hj
      split at hj
      · rename_i hjp
        cases hj
        exact Or.inl ⟨rfl, hjp⟩
      · rw [getElem?_writePTE _ _ _ _ hve] at hj
        split at hj
        · cases hj
          exact absurd hrj (by decide)
        · rename_i hjv
          exact Or.inr ⟨hj, by omega⟩
    refine ⟨?_, hd2, ?_⟩
    · intro i j ei ej hi hj hie hje' hri hrj heq
      rcases new i ei hie hri with ⟨h1, h2⟩ | ⟨h1, h2⟩ <;>
        rcases new j ej hje' hrj with ⟨h3, h4⟩ | ⟨h3, h4⟩
      · omega
      · exact absurd (hd1 j jv ej ve' hj hjvn h3 hje hrj hres (by rw [← heq, h1])) h4
      · exact absurd (hd1 i jv ei ve' hi hjvn h1 hje hri hres (by rw [heq, h3])) h2
      · exact hd1 i j ei ej hi hj h1 h3 hri hrj heq
    · intro a i fa ei ha hfa hi hie hri
      rcases new i ei hie hri with ⟨h1, -⟩ | ⟨h1, -⟩
      · rw [h1]
        exact hd3 a jv fa ve' ha hfa hjvn hje hres
      · exact hd3 a i fa ei ha hfa hi h1 hri

/-- C19: if, among the table entries (the first `n`, for any `n` that covers
the first `*table_cnt`) and the first `*frame_cnt` pool entries, the frames of
the resident entries are pairwise distinct, the pool frames are pairwise
distinct and no pool frame is the frame of a resident entry, then the same
three conditions hold after a call of any of the three access processors that
returns (a victim being found when one is needed); so no two resident pages
ever share a frame. -/
theorem frames_stay_distinct (n : Nat) (m : Mem) (p ts : Int) (r : Int × Mem)
    (hn : m.table_cnt.toNat ≤ n) (hd : FramesDistinct n m) :
    (process_page_access_fifo m p ts = Except.ok r → FramesDistinct n r.2) ∧
    (process_page_access_lru m p ts = Except.ok r → FramesDistinct n r.2) ∧
    (process_page_access_lfu m p ts = Except.ok r → FramesDistinct n r.2) :=
  ⟨access_framesDistinct fifo_scan fifo_scan_sound n m p ts r hn hd,
   access_framesDistinct lru_scan lru_scan_sound n m p ts r hn hd,
   access_framesDistinct lfu_scan lfu_scan_sound n m p ts r hn hd⟩

/-- Instance of `frames_stay_distinct`: the sample table with frames 4 and 9 in
use and frame 5 free; page 2 is given frame 5 by each of the three
processors. -/
theorem frames_stay_distinct_witness :
    FramesDistinct 3 sampleMemFree ∧
    (∃ m', process_page_access_fifo sampleMemFree 2 9 = Except.ok (5, m') ∧
      FramesDistinct 3 m') ∧
    (∃ m', process_page_access_lru sampleMemFree 2 9 = Except.ok (5, m') ∧
      FramesDistinct 3 m') ∧
    (∃ m', process_page_access_lfu sampleMemFree 2 9 = Except.ok (5, m') ∧
      FramesDistinct 3 m') :=
  have hd : FramesDistinct 3 sampleMemFree := by
    refine ⟨?_, ?_, ?_⟩
    · intro i j ei ej hi hj hie hje hri hrj heq
      interval_cases i <;> interval_cases j <;>
        simp [sampleMemFree, sampleTable] at hie hje <;> subst hie <;> subst hje <;>
        first
          | rfl
          | exact absurd heq (by decide)
    · intro a b fa fb ha hb _ _ _
      have ha1 : a < 1 := ha
      have hb1 : b < 1 := hb
      omega
    · intro a i fa ei ha hfa hi hie hri
      have ha1 : a < 1 := ha
      interval_cases a
      simp [sampleMemFree] at hfa
      subst hfa
      interval_cases i <;> simp [sampleMemFree, sampleTable] at hie <;> subst hie <;>
        decide
  ⟨hd,
   ⟨_, rfl, (frames_stay_distinct 3 sampleMemFree 2 9 _ (by decide) hd).1 rfl⟩,
   ⟨_, rfl, (frames_stay_distinct 3 sampleMemFree 2 9 _ (by decide) hd).2.1 rfl⟩,
   ⟨_, rfl, (frames_stay_distinct 3 sampleMemFree 2 9 _ (by decide) hd).2.2 rfl⟩⟩

/-! ## C15: the LFU driver works on the caller's table -/

theorem lru_callSpec (refs : List Int) (frame_cnt : Int) :
    CallSpec process_page_access_lru memLocal refs (lru_loop_body refs frame_cnt) := by
  intro i s p e r hp he hr
  obtain ⟨k', hk'⟩ := lru_loop_body_simOf s.page_table s.frame_pool (memLocal s)
    s.frames_in_use s.page_faults s.current_timestamp refs frame_cnt i p e r hp he hr
  exact ⟨_, hk', rfl, rfl, rfl, rfl⟩

theorem lfu_callSpec (refs : List Int) :
    CallSpec process_page_access_lfu memCaller refs (lfu_loop_body refs) := by
  intro i s p e r hp he hr
  have hread : readPTE s.page_table p = Except.ok e := readPTE_of_index he
  have hcall : ∀ s1 : Sim, memCaller s1 = memCaller s →
      s1.current_timestamp = s.current_timestamp →
      call_on_caller process_page_access_lfu s1 p =
        Except.ok { s1 with page_table := r.2.page_table, table_cnt := r.2.table_cnt,
                            local_frame_pool := r.2.frame_pool,
                            local_frame_cnt := r.2.frame_cnt } := by
    intro s1 hm hts
    unfold call_on_caller
    have : process_page_access_lfu
        { page_table := s1.page_table, table_cnt := s1.table_cnt,
          frame_pool := s1.local_frame_pool, frame_cnt := s1.local_frame_cnt }
        p s1.current_timestamp = Except.ok r := by
      show process_page_access_lfu (memCaller s1) p s1.current_timestamp = Except.ok r
      rw [hm, hts]
      exact hr
    rw [this, bind_ok]
    rfl
  unfold lfu_loop_body
  simp only [hp, hread, bind_ok]
  by_cases hz : e.is_valid = 0
  · simp only [if_pos hz]
    have hc := hcall { s with page_faults := wrapInt (s.page_faults + 1) } rfl rfl
    rw [hc, bind_ok]
    exact ⟨_, rfl, rfl, rfl, rfl, rfl⟩
  · simp only [if_neg hz]
    rw [hcall s rfl rfl, bind_ok]
    exact ⟨_, rfl, rfl, rfl, rfl, rfl⟩

theorem callSpec_replay (scan : List PTE → Int → Int → Except Fault Int)
    (mem : Sim → Mem) (refs : List Int) (body : Nat → Sim → Except Fault Sim)
    (hspec : CallSpec (process_page_access scan) mem refs body) (s0 : Sim)
    (hpf : s0.page_faults = 0) (hts : s0.current_timestamp = 1) (n : Nat) :
    (n : Int) ≤ INT_MAX →
    ∀ m, replay_state (process_page_access scan) (mem s0) refs n = Except.ok m →
      ∃ s, iterate n body s0 = Except.ok s ∧ mem s = m ∧
        s.page_faults = (replay_faults (process_page_access scan) (mem s0) refs n : Nat) ∧
        s.current_timestamp = wrapInt ((n : Int) + 1) ∧ s.frame_pool = s0.frame_pool := by
  induction n with
  | zero =>
    intro _ m h
    cases h
    exact ⟨s0, rfl, rfl, by rw [hpf]; rfl, by rw [hts]; rfl, rfl⟩
  | succ n ih =>
    intro hn m' h
    obtain ⟨m, p, r, hm, hp, hr, hfin⟩ := replay_state_succ h
    subst hfin
    have hn' : (n : Int) + 1 ≤ INT_MAX := by exact_mod_cast hn
    obtain ⟨s, hs, hmem, hpfs, htss, hpool⟩ := ih (by omega) m hm
    have hwrap : wrapInt ((n : Int) + 1) = (n : Int) + 1 := by
      apply wrapInt_of_isInt32
      unfold isInt32 INT_MIN
      constructor <;> omega
    rw [hwrap] at htss
    obtain ⟨e, he, -⟩ := access_cases scan m p _ r hr
    rw [← hmem] at he hr
    rw [← htss] at hr
    obtain ⟨s', hbody, hmem', hpf', hts', hpool'⟩ := hspec n s p e r hp he hr
    refine ⟨s', ?_, hmem', ?_, ?_, hpool'.trans hpool⟩
    · rw [iterate_succ, hs, bind_ok, hbody]
    · have hfault : fault_at (process_page_access scan) (mem s0) refs n =
          decide (e.is_valid = 0) := by
        unfold fault_at
        rw [hm, index_natCast]
        have := readRef_eq_ok hp
        rw [index_natCast] at this
        rw [hmem] at he
        simp only [this, he]
      have hle := replay_faults_le (process_page_access scan) (mem s0) refs n
      rw [hpf', hpfs, replay_faults_succ, hfault]
      by_cases hz : e.is_valid = 0
      · rw [if_pos hz]
        simp only [hz, decide_True, if_true]
        rw [wrapInt_of_isInt32]
        · push_cast; rfl
        · unfold isInt32 INT_MIN
          unfold INT_MAX at hn'
          constructor <;> omega
      · rw [if_neg hz]
        simp [hz]
    · rw [hts', htss]
      push_cast
      rfl

theorem lfu_pool_copied (POOLMAX : Nat) (page_table : List PTE) (table_cnt : Int)
    (frame_pool : List Int) (frame_cnt : Int)
    (hfc : frame_cnt.toNat ≤ frame_pool.length) (hfm : frame_cnt.toNat ≤ POOLMAX) :
    forLoop frame_cnt (copy_pool_body POOLMAX)
        (initSim page_table table_cnt frame_pool frame_cnt) =
      Except.ok (simOfCaller frame_pool
        (callerStart page_table table_cnt frame_pool frame_cnt) 0 1) := by
  rw [forLoop_eq_iterate, copy_pool_iterate POOLMAX _ _ hfc hfm]
  simp [simOfCaller, callerStart, initSim]

/-- C15: when the pool copy fits, `reference_cnt` is an `int` and the replay of
the reference string through `process_page_access_lfu` from the caller's own
table is defined, `count_page_faults_lfu` returns the number of references whose
page was not resident at the moment of reference and leaves in the caller's
`page_table` the table produced by that replay (timestamps 1 to
`reference_cnt`), while the caller's `frame_pool` holds what it held before
(`frame_cnt` is passed by value).  The caller's table does change on some
inputs: after one reference to an absent page with one free frame it differs
from the original. -/
theorem lfu_driver_mutates_caller (POOLMAX : Nat) (page_table : List PTE) (table_cnt : Int)
    (reference_string : List Int) (reference_cnt : Int) (frame_pool : List Int)
    (frame_cnt : Int) (m : Mem)
    (hfc : frame_cnt.toNat ≤ frame_pool.length) (hfm : frame_cnt.toNat ≤ POOLMAX)
    (hrc : reference_cnt ≤ INT_MAX)
    (hrun : replay_state process_page_access_lfu
      (callerStart page_table table_cnt frame_pool frame_cnt) reference_string
      reference_cnt.toNat = Except.ok m) :
    count_page_faults_lfu POOLMAX page_table table_cnt reference_string reference_cnt
        frame_pool frame_cnt =
      Except.ok (((replay_faults process_page_access_lfu
        (callerStart page_table table_cnt frame_pool frame_cnt) reference_string
        reference_cnt.toNat : Nat) : Int), m.page_table, frame_pool) ∧
    ∃ t', count_page_faults_lfu 4 emptyTable 2 [1] 1 [7] 1 = Except.ok (1, t', [7]) ∧
      t' ≠ emptyTable := by
  constructor
  · have hn : (reference_cnt.toNat : Int) ≤ INT_MAX := by
      unfold INT_MAX at hrc ⊢
      omega
    obtain ⟨s, hs, hmem, hpf, -, hpool⟩ := callSpec_replay lfu_scan memCaller
      reference_string (lfu_loop_body reference_string) (lfu_callSpec reference_string)
      (simOfCaller frame_pool (callerStart page_table table_cnt frame_pool frame_cnt) 0 1)
      rfl rfl reference_cnt.toNat hn m hrun
    unfold count_page_faults_lfu
    simp only [lfu_pool_copied POOLMAX page_table table_cnt frame_pool frame_cnt hfc hfm,
      bind_ok]
    rw [forLoop_eq_iterate, hs, bind_ok]
    have hpt : s.page_table = m.page_table := congrArg Mem.page_table hmem
    have hfp : s.frame_pool = frame_pool := hpool
    have hpf' : s.page_faults = ((replay_faults process_page_access_lfu
        (callerStart page_table table_cnt frame_pool frame_cnt) reference_string
        reference_cnt.toNat : Nat) : Int) := hpf
    rw [pure_eq_ok, hpt, hfp, hpf']
  · exact ⟨_, rfl, by decide⟩

/-- Instance of `lfu_driver_mutates_caller`: the sample table with one free
frame and the references 2, 0, 2, 1; the call returns one fault and leaves page
2 resident in the caller's table. -/
theorem lfu_driver_mutates_caller_witness :
    ∃ t', count_page_faults_lfu 4 sampleTable 3 [2, 0, 2, 1] 4 [5, 6] 1 =
        Except.ok (1, t', [5, 6]) ∧
      (∃ e, t'[2]? = some e ∧ resident e) ∧ t' ≠ sampleTable :=
  ⟨_, (lfu_driver_mutates_caller 4 sampleTable 3 [2, 0, 2, 1] 4 [5, 6] 1 _ (by decide)
      (by decide) (by decide) rfl).1,
   ⟨_, rfl, by decide⟩, by decide⟩

/-! ## Well-formed runs: a victim is always there -/

theorem fifo_scan_complete : ScanComplete fifo_scan := by
  intro t n ts hcap hex hkey
  obtain ⟨v, hs⟩ := fifo_scan_total t n ts hcap
  obtain ⟨k, hk⟩ := fifo_scan_spec hs
  obtain ⟨i, e, hi, hie, hres⟩ := hex
  obtain ⟨j, hvj, -⟩ := scanResult_victim hk ⟨i, e, hi, hie, hres, (hkey i e hi hie hres).1⟩
  exact ⟨v, hs, by omega⟩

theorem lru_scan_complete : ScanComplete lru_scan := by
  intro t n ts hcap hex hkey
  obtain ⟨v, hs⟩ := lru_scan_total t n ts hcap
  obtain ⟨k, hk⟩ := lru_scan_spec hs
  obtain ⟨i, e, hi, hie, hres⟩ := hex
  obtain ⟨j, hvj, -⟩ := scanResult_victim hk
    ⟨i, e, hi, hie, hres, (hkey i e hi hie hres).2.1⟩
  exact ⟨v, hs, by omega⟩

theorem lfu_scan_complete : ScanComplete lfu_scan := by
  intro t n ts hcap hex hkey
  obtain ⟨v, hs⟩ := lfu_scan_total t n ts hcap
  obtain ⟨k, hk⟩ := lfu_scan_spec hs
  obtain ⟨i, e, hi, hie, hres⟩ := hex
  have hbelow : lfuKey e < toLex (INT_MAX, ts) := by
    unfold lfuKey
    rw [Prod.Lex.lt_iff]
    exact Or.inl (hkey i e hi hie hres).2.2
  obtain ⟨j, hvj, -⟩ := scanResult_victim hk ⟨i, e, hi, hie, hres, hbelow⟩
  exact ⟨v, hs, by omega⟩

theorem residentCount_pos {t : List PTE} {n : Nat} (h : 0 < residentCount t n) :
    ∃ (j : Nat) (e : PTE), j < n ∧ t[j]? = some e ∧ resident e := by
  unfold residentCount at h
  obtain ⟨e, hmem, hres⟩ := List.countP_pos_iff.mp h
  obtain ⟨j, hj⟩ := List.mem_iff_getElem?.mp hmem
  rw [List.getElem?_take] at hj
  split at hj
  · rename_i hjn
    exact ⟨j, e, hjn, hj, of_decide_eq_true hres⟩
  · cases hj

theorem residentCount_zero {t : List PTE} {n : Nat}
    (h : ∀ (j : Nat) (e : PTE), j < n → t[j]? = some e → ¬ resident e) :
    residentCount t n = 0 := by
  by_contra hne
  obtain ⟨j, e, hj, hje, hres⟩ := residentCount_pos (Nat.pos_of_ne_zero hne)
  exact h j e hj hje hres

theorem runInv_victim (scan : List PTE → Int → Int → Except Fault Int)
    (hsound : ScanSound scan) (hcomplete : ScanComplete scan) (F0 : Int) (pool : List Int)
    (n : Int) (i : Nat) (m : Mem) (hF0 : 1 ≤ F0) (hi : (i : Int) + 1 ≤ INT_MAX)
    (hinv : RunInv F0 pool n i m) (hc : m.frame_cnt ≤ 0) :
    ∃ v ve, scan m.page_table m.table_cnt ((i : Int) + 1) = Except.ok v ∧ 0 ≤ v ∧ v < n ∧
      index m.page_table v = some ve ∧ resident ve := by
  obtain ⟨htc, hlen, -, hc0, -, htot, hent⟩ := hinv
  have hpos : 0 < residentCount m.page_table n.toNat := by
    unfold frameTotal at htot
    rw [htc] at htot
    omega
  have hex := residentCount_pos hpos
  obtain ⟨v, hs, hv1⟩ := hcomplete m.page_table n ((i : Int) + 1) hlen hex (by
    intro j e hj hje hres
    obtain ⟨h1, h2, -, h4⟩ := hent j e hj hje hres
    exact ⟨by omega, by omega, by omega⟩)
  obtain ⟨jv, ve, hvj, hjn, hje, hres⟩ := hsound _ _ _ _ hs hv1
  refine ⟨v, ve, by rw [htc]; exact hs, by omega, by omega, ?_, hres⟩
  rw [hvj, index_natCast]
  exact hje

theorem access_runInv (scan : List PTE → Int → Int → Except Fault Int)
    (hsound : ScanSound scan) (hcomplete : ScanComplete scan) (F0 : Int) (pool : List Int)
    (n : Int) (i : Nat) (m : Mem) (p : Int) (hF0 : 1 ≤ F0) (hi : (i : Int) + 1 ≤ INT_MAX)
    (hinv : RunInv F0 pool n i m) (hp0 : 0 ≤ p) (hp : p < n) :
    ∃ r e, process_page_access scan m p ((i : Int) + 1) = Except.ok r ∧
      index m.page_table p = some e ∧ RunInv F0 pool n (i + 1) r.2 ∧
      ∀ (j : Nat) (e' : PTE), r.2.page_table[j]? = some e' → resident e' →
        (j : Int) = p ∨ m.page_table[j]? = some e' := by
  have hinv' := hinv
  obtain ⟨htc, hlen, hpool, hc0, hcl, htot, hent⟩ := hinv
  have hplt : p.toNat < m.page_table.length := by omega
  have hpget : m.page_table[p.toNat]? = some m.page_table[p.toNat] :=
    List.getElem?_eq_getElem hplt
  have he : index m.page_table p = some m.page_table[p.toNat] := by
    unfold index
    rw [if_pos hp0]
    exact hpget
  generalize m.page_table[p.toNat] = e at he hpget
  have hex : ∃ r, process_page_access scan m p ((i : Int) + 1) = Except.ok r := by
    by_cases hv : resident e
    · exact ⟨_, access_hit scan m p _ e he hv⟩
    · by_cases hc : 0 < m.frame_cnt
      · have hidx : (m.frame_cnt - 1).toNat < m.frame_pool.length := by
          rw [hpool]; omega
        have hf : index m.frame_pool (m.frame_cnt - 1) =
            some m.frame_pool[(m.frame_cnt - 1).toNat] := by
          unfold index
          rw [if_pos (by omega)]
          exact List.getElem?_eq_getElem hidx
        exact ⟨_, access_alloc scan m p _ e _ he hv hc hf⟩
      · obtain ⟨v, ve, hs, -, -, hve, -⟩ := runInv_victim scan hsound hcomplete F0 pool n i m
          hF0 hi hinv' (by omega)
        exact ⟨_, access_evict scan m p _ v e ve he hv hc hs hve⟩
  obtain ⟨r, hr⟩ := hex
  obtain ⟨h1, h2, h3⟩ := access_step scan hsound m p _ r (by rw [htc]; exact hp) hr
  obtain ⟨e1, he1, hcase⟩ := access_cases scan m p _ r hr
  have hee : e1 = e := by
    rw [he] at he1
    exact (Option.some.inj he1).symm
  subst hee
  have key : r.2.page_table.length = m.page_table.length ∧ r.2.frame_pool = m.frame_pool ∧
      r.2.frame_cnt ≤ m.frame_cnt ∧
      ∀ (j : Nat) (e' : PTE), r.2.page_table[j]? = some e' → resident e' →
        ((j : Int) = p ∧ e'.arrival_timestamp ≤ (i : Int) + 1 ∧
          e'.last_access_timestamp ≤ (i : Int) + 1 ∧ 1 ≤ e'.reference_count ∧
          e'.reference_count ≤ (i : Int) + 1) ∨
        ((j : Int) ≠ p ∧ m.page_table[j]? = some e') := by
    rcases hcase with ⟨hv, hr'⟩ | ⟨hv, hc, f, hf, hr'⟩ | ⟨hv, hc, v, ve, hs, hve, hr'⟩
    · subst hr'
      refine ⟨length_writePTE _ _ _, rfl, le_refl _, ?_⟩
      intro j e' hj hres
      replace hj : (writePTE m.page_table p (hitEntry e1 ((i : Int) + 1)))[j]? = some e' := hj
      rw [getElem?_writePTE _ _ _ _ he] at hj
      split at hj
      · rename_i hjp
        cases hj
        obtain ⟨b1, -, b3, b4⟩ := hent p.toNat e1 (by omega) hpget hv
        refine Or.inl ⟨hjp, by show e1.arrival_timestamp ≤ _; omega, le_refl _, ?_, ?_⟩
        · show 1 ≤ wrapInt (e1.reference_count + 1)
          rw [wrapInt_of_isInt32]
          · omega
          · unfold isInt32 INT_MIN
            unfold INT_MAX at hi ⊢
            constructor <;> omega
        · show wrapInt (e1.reference_count + 1) ≤ _
          rw [wrapInt_of_isInt32]
          · omega
          · unfold isInt32 INT_MIN
            unfold INT_MAX at hi ⊢
            constructor <;> omega
      · rename_i hjp
        exact Or.inr ⟨hjp, hj⟩
    · subst hr'
      refine ⟨length_writePTE _ _ _, rfl, by show m.frame_cnt - 1 ≤ m.frame_cnt; omega, ?_⟩
      intro j e' hj hres
      replace hj : (writePTE m.page_table p (freshEntry f ((i : Int) + 1)))[j]? = some e' := hj
      rw [getElem?_writePTE _ _ _ _ he] at hj
      split at hj
      · rename_i hjp
        cases hj
        exact Or.inl ⟨hjp, le_refl _, le_refl _, le_refl _, by show (1 : Int) ≤ _; omega⟩
      · rename_i hjp
        exact Or.inr ⟨hjp, hj⟩
    · subst hr'
      have hne : v ≠ p := by
        intro hvp
        have hv1 : v ≠ -1 := by omega
        obtain ⟨jv, ve', hvj, -, hje, hres⟩ := hsound _ _ _ _ hs hv1
        rw [hvj, index_natCast, hje] at hve
        cases hve
        rw [← hvp, hvj, index_natCast, hje] at he
        cases he
        exact hv hres
      have he2 : index (writePTE m.page_table v evictedEntry) p = some e1 := by
        rw [index_writePTE_ne _ _ hne]; exact he
      refine ⟨by
        show (writePTE (writePTE m.page_table v evictedEntry) p _).length = _
        rw [length_writePTE, length_writePTE], rfl, le_refl _, ?_⟩
      intro j e' hj hres
      replace hj : (writePTE (writePTE m.page_table v evictedEntry) p
          (freshEntry ve.frame_number ((i : Int) + 1)))[j]? = some e' := hj
      rw [getElem?_writePTE _ _ _ _ he2] at hj
      split at hj
      · rename_i hjp
        cases hj
        exact Or.inl ⟨hjp, le_refl _, le_refl _, le_refl _, by show (1 : Int) ≤ _; omega⟩
      · rename_i hjp
        rw [getElem?_writePTE _ _ _ _ hve] at hj
        split at hj
        · cases hj
          exact absurd hres (by decide)
        · exact Or.inr ⟨hjp, hj⟩
  obtain ⟨k1, k2, k3, k4⟩ := key
  refine ⟨r, e1, hr, he, ⟨h2.trans htc, by rw [k1]; exact hlen, k2.trans hpool, h3 hc0,
    by have := h3 hc0; omega, h1.trans htot, ?_⟩, ?_⟩
  · intro j e' hj hje hres
    rcases k4 j e' hje hres with ⟨-, b1, b2, b3, b4⟩ | ⟨-, hold⟩
    · push_cast
      exact ⟨b1, b2, b3, b4⟩
    · obtain ⟨b1, b2, b3, b4⟩ := hent j e' hj hold hres
      push_cast
      exact ⟨by omega, by omega, b3, by omega⟩
  · intro j e' hje hres
    rcases k4 j e' hje hres with ⟨hjp, -⟩ | ⟨-, hold⟩
    · exact Or.inl hjp
    · exact Or.inr hold

theorem stepSpec_of_callSpec {proc : Mem → Int → Int → Except Fault (Int × Mem)}
    {mem : Sim → Mem} {refs : List Int} {body : Nat → Sim → Except Fault Sim}
    (h : CallSpec proc mem refs body) : StepSpec proc mem refs body := by
  intro i s p e hp he
  right
  intro r hr
  obtain ⟨s', h1, h2, h3, h4, -⟩ := h i s p e r hp he hr
  exact ⟨s', h1, h2, h3, h4⟩

theorem fifo_stepSpec (refs : List Int) (frame_cnt : Int) :
    StepSpec process_page_access_fifo memLocal refs (fifo_loop_body refs frame_cnt) := by
  intro i s p e hp he
  have hread : readPTE s.local_page_table p = Except.ok e := readPTE_of_index he
  by_cases hz : e.is_valid = 0
  · by_cases hu : s.frames_in_use < frame_cnt
    · left
      refine ⟨fun hres => hres hz, ?_⟩
      unfold fifo_loop_body
      simp only [hp, hread, bind_ok, if_pos hz]
      rw [if_pos hu]
      exact ⟨_, rfl, rfl, rfl, rfl⟩
    · right
      intro r hr
      have hcall := call_on_local_simOf process_page_access_fifo s.page_table s.frame_pool
        (memLocal s) s.frames_in_use (wrapInt (s.page_faults + 1)) s.current_timestamp p r hr
      unfold fifo_loop_body
      simp only [hp, hread, bind_ok, if_pos hz]
      rw [if_neg hu]
      simp only [simOf, memLocal] at hcall
      simp only [hcall, bind_ok]
      exact ⟨_, rfl, rfl, rfl, rfl⟩
  · right
    intro r hr
    have hcall := call_on_local_simOf process_page_access_fifo s.page_table s.frame_pool
      (memLocal s) s.frames_in_use s.page_faults s.current_timestamp p r hr
    unfold fifo_loop_body
    simp only [hp, hread, bind_ok, if_neg hz]
    have hs : simOf s.page_table s.frame_pool (memLocal s) s.frames_in_use s.page_faults
        s.current_timestamp = s := rfl
    rw [hs] at hcall
    simp only [hcall, bind_ok]
    exact ⟨_, rfl, rfl, rfl, rfl⟩

theorem not_mem_take_of_nodup {refs : List Int} {R i : Nat} {p : Int}
    (hnd : (refs.take R).Nodup) (hi : i < R) (hp : refs[i]? = some p) :
    p ∉ refs.take i := by
  intro hmem
  obtain ⟨k, hk⟩ := List.mem_iff_getElem?.mp hmem
  rw [List.getElem?_take] at hk
  split at hk
  · rename_i hki
    have hlen : i < refs.length := (List.getElem?_eq_some_iff.mp hp).1
    have := (List.nodup_iff_getElem?_ne_getElem?.mp hnd) k i hki (by
      rw [List.length_take]; omega)
    apply this
    rw [List.getElem?_take, List.getElem?_take, if_pos (by omega), if_pos hi, hk, hp]
  · cases hk

theorem take_succ_of_getElem? {refs : List Int} {i : Nat} {p : Int}
    (hp : refs[i]? = some p) : refs.take (i + 1) = refs.take i ++ [p] := by
  rw [List.take_succ, hp]
  rfl

theorem runInv_mono {F0 : Int} {pool : List Int} {n : Int} {i : Nat} {m : Mem}
    (h : RunInv F0 pool n i m) : RunInv F0 pool n (i + 1) m := by
  obtain ⟨h1, h2, h3, h4, h5, h6, h7⟩ := h
  refine ⟨h1, h2, h3, h4, h5, h6, ?_⟩
  intro j e hj hje hres
  obtain ⟨b1, b2, b3, b4⟩ := h7 j e hj hje hres
  push_cast
  exact ⟨by omega, by omega, b3, by omega⟩

theorem readRef_of_getElem? {refs : List Int} {i : Nat} {p : Int} (h : refs[i]? = some p) :
    readRef refs (i : Int) = Except.ok p := by
  unfold readRef
  rw [index_natCast, h]

theorem driver_invariant (scan : List PTE → Int → Int → Except Fault Int)
    (hsound : ScanSound scan) (hcomplete : ScanComplete scan) (mem : Sim → Mem)
    (refs : List Int) (body : Nat → Sim → Except Fault Sim)
    (hspec : StepSpec (process_page_access scan) mem refs body) (s0 : Sim)
    (hpf : s0.page_faults = 0) (hts : s0.current_timestamp = 1)
    (F0 : Int) (pool : List Int) (n : Int) (hF0 : 1 ≤ F0)
    (hinv0 : RunInv F0 pool n 0 (mem s0)) (R : Nat) (hR : (R : Int) ≤ INT_MAX)
    (hrefs : ∀ i, i < R → ∃ p, refs[i]? = some p ∧ 0 ≤ p ∧ p < n) :
    ∀ i, i ≤ R → ∃ s, iterate i body s0 = Except.ok s ∧ RunInv F0 pool n i (mem s) ∧
      s.current_timestamp = wrapInt ((i : Int) + 1) ∧
      ((refs.take R).Nodup → s.page_faults = (i : Int) ∧
        ∀ (j : Nat) (e : PTE), j < n.toNat → (mem s).page_table[j]? = some e →
          resident e → (j : Int) ∈ refs.take i) := by
  intro i
  induction i with
  | zero =>
    intro _
    refine ⟨s0, rfl, hinv0, by rw [hts]; rfl, fun _ => ⟨by rw [hpf]; rfl, ?_⟩⟩
    intro j e hj hje hres
    obtain ⟨-, -, b3, b4⟩ := hinv0.2.2.2.2.2.2 j e hj hje hres
    have b4' : e.reference_count ≤ 0 := by exact_mod_cast b4
    omega
  | succ i ih =>
    intro hi1
    obtain ⟨s, hs, hinv, htss, hextra⟩ := ih (by omega)
    obtain ⟨p, hpget, hp0, hpn⟩ := hrefs i (by omega)
    have hp := readRef_of_getElem? hpget
    have hiR : (i : Int) + 1 ≤ INT_MAX := by
      have : ((i + 1 : Nat) : Int) ≤ (R : Int) := by exact_mod_cast hi1
      push_cast at this
      omega
    have hwrap : ∀ x : Int, 0 ≤ x → x ≤ (i : Int) → wrapInt (x + 1) = x + 1 := by
      intro x hx0 hxi
      apply wrapInt_of_isInt32
      unfold isInt32 INT_MIN
      unfold INT_MAX at hiR ⊢
      constructor <;> omega
    rw [hwrap (i : Int) (by omega) (le_refl _)] at htss
    obtain ⟨r, e, hr, he, hinv', hres'⟩ := access_runInv scan hsound hcomplete F0 pool n i
      (mem s) p hF0 hiR hinv hp0 hpn
    have hptn : p.toNat < n.toNat := by omega
    have hpe : (mem s).page_table[p.toNat]? = some e := (index_eq_some he).2.2
    have habsent : (refs.take R).Nodup → e.is_valid = 0 := by
      intro hnd
      by_contra hv
      have hmem := (hextra hnd).2 p.toNat e hptn hpe hv
      have hcast : ((p.toNat : Nat) : Int) = p := by omega
      rw [hcast] at hmem
      exact not_mem_take_of_nodup hnd (by omega) hpget hmem
    have hsub : ∀ x : Int, x ∈ refs.take i → x ∈ refs.take (i + 1) := by
      intro x hx
      rw [take_succ_of_getElem? hpget]
      exact List.mem_append_left _ hx
    have hpin : p ∈ refs.take (i + 1) := by
      rw [take_succ_of_getElem? hpget]
      exact List.mem_append_right _ (List.mem_singleton_self p)
    rcases hspec i s p e hp he with ⟨-, s', hb, hm, hpf', hts'⟩ | hcall
    · refine ⟨s', by rw [iterate_succ, hs, bind_ok, hb], by rw [hm]; exact runInv_mono hinv,
        ?_, ?_⟩
      · rw [hts', htss]
        push_cast
        rfl
      · intro hnd
        obtain ⟨e1, e2⟩ := hextra hnd
        refine ⟨?_, ?_⟩
        · rw [hpf', e1, hwrap (i : Int) (by omega) (le_refl _)]
          push_cast
          rfl
        · intro j e' hj hje hres
          rw [hm] at hje
          exact hsub _ (e2 j e' hj hje hres)
    · obtain ⟨s', hb, hm, hpf', hts'⟩ := hcall r (by rw [htss]; exact hr)
      refine ⟨s', by rw [iterate_succ, hs, bind_ok, hb], by rw [hm]; exact hinv', ?_, ?_⟩
      · rw [hts', htss]
        push_cast
        rfl
      · intro hnd
        obtain ⟨e1, e2⟩ := hextra hnd
        refine ⟨?_, ?_⟩
        · rw [hpf', if_pos (habsent hnd), e1, hwrap (i : Int) (by omega) (le_refl _)]
          push_cast
          rfl
        · intro j e' hj hje hres
          rw [hm] at hje
          rcases hres' j e' hje hres with hjp | hold
          · rw [hjp]
            exact hpin
          · exact hsub _ (e2 j e' hj hold hres)

theorem runInv_localCopy (page_table : List PTE) (table_cnt : Int) (frame_pool : List Int)
    (frame_cnt : Int)
    (hnone : ∀ (j : Nat) (e : PTE), j < table_cnt.toNat → page_table[j]? = some e →
      ¬ resident e)
    (hfc1 : 1 ≤ frame_cnt) (htc : table_cnt.toNat ≤ page_table.length)
    (hfc : frame_cnt.toNat ≤ frame_pool.length) :
    RunInv frame_cnt (frame_pool.take frame_cnt.toNat) table_cnt 0
      (localCopy page_table table_cnt frame_pool frame_cnt) := by
  have hnone' : ∀ (j : Nat) (e : PTE), j < table_cnt.toNat →
      (page_table.take table_cnt.toNat)[j]? = some e → ¬ resident e := by
    intro j e hj hje
    rw [List.getElem?_take, if_pos hj] at hje
    exact hnone j e hj hje
  refine ⟨rfl, ?_, rfl, by show 0 ≤ frame_cnt; omega, ?_, ?_, ?_⟩
  · show table_cnt.toNat ≤ (page_table.take table_cnt.toNat).length
    rw [List.length_take]; omega
  · show frame_cnt.toNat ≤ (frame_pool.take frame_cnt.toNat).length
    rw [List.length_take]; omega
  · show ((residentCount (page_table.take table_cnt.toNat) table_cnt.toNat : Nat) : Int)
      + frame_cnt = frame_cnt
    rw [residentCount_zero hnone']
    simp
  · intro j e hj hje hres
    exact absurd hres (hnone' j e hj hje)

theorem runInv_callerStart (page_table : List PTE) (table_cnt : Int) (frame_pool : List Int)
    (frame_cnt : Int)
    (hnone : ∀ (j : Nat) (e : PTE), j < table_cnt.toNat → page_table[j]? = some e →
      ¬ resident e)
    (hfc1 : 1 ≤ frame_cnt) (htc : table_cnt.toNat ≤ page_table.length)
    (hfc : frame_cnt.toNat ≤ frame_pool.length) :
    RunInv frame_cnt (frame_pool.take frame_cnt.toNat) table_cnt 0
      (callerStart page_table table_cnt frame_pool frame_cnt) := by
  refine ⟨rfl, htc, rfl, by show 0 ≤ frame_cnt; omega, ?_, ?_, ?_⟩
  · show frame_cnt.toNat ≤ (frame_pool.take frame_cnt.toNat).length
    rw [List.length_take]; omega
  · show ((residentCount page_table table_cnt.toNat : Nat) : Int) + frame_cnt = frame_cnt
    rw [residentCount_zero hnone]
    simp
  · intro j e hj hje hres
    exact absurd hres (hnone j e hj hje)

theorem driver_run (scan : List PTE → Int → Int → Except Fault Int)
    (hsound : ScanSound scan) (hcomplete : ScanComplete scan) (mem : Sim → Mem)
    (refs : List Int) (body : Nat → Sim → Except Fault Sim)
    (hspec : StepSpec (process_page_access scan) mem refs body) (s0 : Sim)
    (hpf : s0.page_faults = 0) (hts : s0.current_timestamp = 1)
    (F0 : Int) (pool : List Int) (n : Int) (hF0 : 1 ≤ F0)
    (hinv0 : RunInv F0 pool n 0 (mem s0)) (R : Nat) (hR : (R : Int) ≤ INT_MAX)
    (hrefs : ∀ i, i < R → ∃ p, refs[i]? = some p ∧ 0 ≤ p ∧ p < n) :
    (∃ s, iterate R body s0 = Except.ok s ∧
      ((refs.take R).Nodup → s.page_faults = (R : Int))) ∧
    VictimsFound scan mem refs body s0 R := by
  have hall := driver_invariant scan hsound hcomplete mem refs body hspec s0 hpf hts F0 pool
    n hF0 hinv0 R hR hrefs
  constructor
  · obtain ⟨s, hs, -, -, hextra⟩ := hall R (le_refl R)
    exact ⟨s, hs, fun hnd => (hextra hnd).1⟩
  · intro i hi
    obtain ⟨s, hs, hinv, htss, -⟩ := hall i (by omega)
    obtain ⟨p, hpget, hp0, hpn⟩ := hrefs i hi
    have hiR : (i : Int) + 1 ≤ INT_MAX := by omega
    have hwrap : wrapInt ((i : Int) + 1) = (i : Int) + 1 := by
      apply wrapInt_of_isInt32
      unfold isInt32 INT_MIN
      constructor <;> omega
    rw [hwrap] at htss
    have hlen := hinv.2.1
    have htc := hinv.1
    have hplt : p.toNat < (mem s).page_table.length := by omega
    have he : index (mem s).page_table p = some (mem s).page_table[p.toNat] := by
      unfold index
      rw [if_pos hp0]
      exact List.getElem?_eq_getElem hplt
    refine ⟨s, p, _, hs, readRef_of_getElem? hpget, he, ?_⟩
    intro hnres hc
    obtain ⟨v, ve, hscan, hv0, hvn, hve, hres⟩ := runInv_victim scan hsound hcomplete F0 pool
      n i (mem s) hF0 hiR hinv hc
    refine ⟨v, ve, by rw [htss]; exact hscan, hv0, by rw [htc]; exact hvn, hve, hres, ?_⟩
    intro hvp
    rw [hvp, he] at hve
    cases hve
    exact hnres hres

theorem fifo_driver_of_loop (TABLEMAX POOLMAX : Nat) (page_table : List PTE)
    (table_cnt : Int) (refs : List Int) (reference_cnt : Int) (frame_pool : List Int)
    (frame_cnt : Int) (s0 s : Sim)
    (hcopy : (forLoop table_cnt (copy_table_body TABLEMAX)
        (initSim page_table table_cnt frame_pool frame_cnt) >>=
          forLoop frame_cnt (copy_pool_body POOLMAX)) = Except.ok s0)
    (hloop : iterate reference_cnt.toNat (fifo_loop_body refs frame_cnt) s0 = Except.ok s) :
    count_page_faults_fifo TABLEMAX POOLMAX page_table table_cnt refs reference_cnt
      frame_pool frame_cnt = Except.ok (s.page_faults, s.page_table, s.frame_pool) := by
  rw [bind_eq_ok] at hcopy
  obtain ⟨s1, h1, h2⟩ := hcopy
  unfold count_page_faults_fifo
  simp only [h1, h2, bind_ok]
  rw [forLoop_eq_iterate, hloop]
  rfl

theorem lru_driver_of_loop (TABLEMAX POOLMAX : Nat) (page_table : List PTE)
    (table_cnt : Int) (refs : List Int) (reference_cnt : Int) (frame_pool : List Int)
    (frame_cnt : Int) (s0 s : Sim)
    (hcopy : (forLoop table_cnt (copy_table_body TABLEMAX)
        (initSim page_table table_cnt frame_pool frame_cnt) >>=
          forLoop frame_cnt (copy_pool_body POOLMAX)) = Except.ok s0)
    (hloop : iterate reference_cnt.toNat (lru_loop_body refs frame_cnt) s0 = Except.ok s) :
    count_page_faults_lru TABLEMAX POOLMAX page_table table_cnt refs reference_cnt
      frame_pool frame_cnt = Except.ok (s.page_faults, s.page_table, s.frame_pool) := by
  rw [bind_eq_ok] at hcopy
  obtain ⟨s1, h1, h2⟩ := hcopy
  unfold count_page_faults_lru
  simp only [h1, h2, bind_ok]
  rw [forLoop_eq_iterate, hloop]
  rfl

theorem lfu_driver_of_loop (POOLMAX : Nat) (page_table : List PTE)
    (table_cnt : Int) (refs : List Int) (reference_cnt : Int) (frame_pool : List Int)
    (frame_cnt : Int) (s0 s : Sim)
    (hcopy : forLoop frame_cnt (copy_pool_body POOLMAX)
        (initSim page_table table_cnt frame_pool frame_cnt) = Except.ok s0)
    (hloop : iterate reference_cnt.toNat (lfu_loop_body refs) s0 = Except.ok s) :
    count_page_faults_lfu POOLMAX page_table table_cnt refs reference_cnt
      frame_pool frame_cnt = Except.ok (s.page_faults, s.page_table, s.frame_pool) := by
  unfold count_page_faults_lfu
  simp only [hcopy, bind_ok]
  rw [forLoop_eq_iterate, hloop]
  rfl

/-! ## C18: the no-victim branch is out of reach in a well-formed run -/

/-- C18: for each of the three drivers, started from a table none of whose
first `table_cnt` entries is resident, with `1 ≤ frame_cnt ≤ POOLMAX`,
`table_cnt ≤ TABLEMAX`, both counts within the caller's arrays, `reference_cnt`
an `int` and every reference a valid index in `[0, table_cnt)`, the run
completes without any out-of-range access, and every eviction scan made during
it selects an index in `[0, table_cnt)` that holds a resident entry and is not
the referenced page; the sentinel `-1` never indexes the table. -/
theorem no_victim_branch_unreachable (TABLEMAX POOLMAX : Nat) (page_table : List PTE)
    (table_cnt : Int) (refs : List Int) (reference_cnt : Int) (frame_pool : List Int)
    (frame_cnt : Int)
    (hnone : ∀ (j : Nat) (e : PTE), j < table_cnt.toNat → page_table[j]? = some e →
      ¬ resident e)
    (hfc1 : 1 ≤ frame_cnt) (hfm : frame_cnt.toNat ≤ POOLMAX)
    (htm : table_cnt.toNat ≤ TABLEMAX)
    (htc : table_cnt.toNat ≤ page_table.length) (hfc : frame_cnt.toNat ≤ frame_pool.length)
    (hrc : reference_cnt ≤ INT_MAX)
    (hrefs : ∀ i, i < reference_cnt.toNat →
      ∃ p, refs[i]? = some p ∧ 0 ≤ p ∧ p < table_cnt) :
    (∃ s0, (forLoop table_cnt (copy_table_body TABLEMAX)
          (initSim page_table table_cnt frame_pool frame_cnt) >>=
            forLoop frame_cnt (copy_pool_body POOLMAX)) = Except.ok s0 ∧
        (∃ r, count_page_faults_fifo TABLEMAX POOLMAX page_table table_cnt refs
          reference_cnt frame_pool frame_cnt = Except.ok r) ∧
        VictimsFound fifo_scan memLocal refs (fifo_loop_body refs frame_cnt) s0
          reference_cnt.toNat) ∧
    (∃ s0, (forLoop table_cnt (copy_table_body TABLEMAX)
          (initSim page_table table_cnt frame_pool frame_cnt) >>=
            forLoop frame_cnt (copy_pool_body POOLMAX)) = Except.ok s0 ∧
        (∃ r, count_page_faults_lru TABLEMAX POOLMAX page_table table_cnt refs
          reference_cnt frame_pool frame_cnt = Except.ok r) ∧
        VictimsFound lru_scan memLocal refs (lru_loop_body refs frame_cnt) s0
          reference_cnt.toNat) ∧
    (∃ s0, forLoop frame_cnt (copy_pool_body POOLMAX)
          (initSim page_table table_cnt frame_pool frame_cnt) = Except.ok s0 ∧
        (∃ r, count_page_faults_lfu POOLMAX page_table table_cnt refs
          reference_cnt frame_pool frame_cnt = Except.ok r) ∧
        VictimsFound lfu_scan memCaller refs (lfu_loop_body refs) s0
          reference_cnt.toNat) := by
  have hR : (reference_cnt.toNat : Int) ≤ INT_MAX := by
    unfold INT_MAX at hrc ⊢
    omega
  obtain ⟨k, hcopy⟩ := copies_done TABLEMAX POOLMAX page_table table_cnt frame_pool
    frame_cnt htc htm hfc hfm
  have hlocal := runInv_localCopy page_table table_cnt frame_pool frame_cnt hnone hfc1 htc hfc
  have hcaller := runInv_callerStart page_table table_cnt frame_pool frame_cnt hnone hfc1
    htc hfc
  refine ⟨?_, ?_, ?_⟩
  · obtain ⟨⟨s, hs, -⟩, hvict⟩ := driver_run fifo_scan fifo_scan_sound fifo_scan_complete
      memLocal refs (fifo_loop_body refs frame_cnt) (fifo_stepSpec refs frame_cnt)
      (simOf page_table frame_pool (localCopy page_table table_cnt frame_pool frame_cnt)
        k 0 1) rfl rfl frame_cnt _ table_cnt hfc1 hlocal reference_cnt.toNat hR hrefs
    exact ⟨_, hcopy, ⟨_, fifo_driver_of_loop TABLEMAX POOLMAX page_table table_cnt refs
      reference_cnt frame_pool frame_cnt _ s hcopy hs⟩, hvict⟩
  · obtain ⟨⟨s, hs, -⟩, hvict⟩ := driver_run lru_scan lru_scan_sound lru_scan_complete
      memLocal refs (lru_loop_body refs frame_cnt)
      (stepSpec_of_callSpec (lru_callSpec refs frame_cnt))
      (simOf page_table frame_pool (localCopy page_table table_cnt frame_pool frame_cnt)
        k 0 1) rfl rfl frame_cnt _ table_cnt hfc1 hlocal reference_cnt.toNat hR hrefs
    exact ⟨_, hcopy, ⟨_, lru_driver_of_loop TABLEMAX POOLMAX page_table table_cnt refs
      reference_cnt frame_pool frame_cnt _ s hcopy hs⟩, hvict⟩
  · have hpool := lfu_pool_copied POOLMAX page_table table_cnt frame_pool frame_cnt hfc hfm
    obtain ⟨⟨s, hs, -⟩, hvict⟩ := driver_run lfu_scan lfu_scan_sound lfu_scan_complete
      memCaller refs (lfu_loop_body refs) (stepSpec_of_callSpec (lfu_callSpec refs))
      (simOfCaller frame_pool (callerStart page_table table_cnt frame_pool frame_cnt) 0 1)
      rfl rfl frame_cnt _ table_cnt hfc1 hcaller reference_cnt.toNat hR hrefs
    exact ⟨_, hpool, ⟨_, lfu_driver_of_loop POOLMAX page_table table_cnt refs
      reference_cnt frame_pool frame_cnt _ s hpool hs⟩, hvict⟩

/-- Instance of `no_victim_branch_unreachable`: the reference string of Scenario
A on six absent pages with 3 frames; the three drivers return and every
eviction scan of the three runs finds its victim. -/
theorem no_victim_branch_unreachable_witness :
    (∃ r, count_page_faults_fifo 6 4 (absentTable 6) 6 beladyRefs 12 [10, 11, 12] 3 =
      Except.ok r) ∧
    (∃ r, count_page_faults_lru 6 4 (absentTable 6) 6 beladyRefs 12 [10, 11, 12] 3 =
      Except.ok r) ∧
    (∃ r, count_page_faults_lfu 4 (absentTable 6) 6 beladyRefs 12 [10, 11, 12] 3 =
      Except.ok r) ∧
    (∃ s0, VictimsFound fifo_scan memLocal beladyRefs (fifo_loop_body beladyRefs 3) s0 12) ∧
    (∃ s0, VictimsFound lru_scan memLocal beladyRefs (lru_loop_body beladyRefs 3) s0 12) ∧
    (∃ s0, VictimsFound lfu_scan memCaller beladyRefs (lfu_loop_body beladyRefs) s0 12) := by
  obtain ⟨⟨s1, -, h1, v1⟩, ⟨s2, -, h2, v2⟩, ⟨s3, -, h3, v3⟩⟩ :=
    no_victim_branch_unreachable 6 4 (absentTable 6) 6 beladyRefs 12 [10, 11, 12] 3
      (fun j e _ hje => forall_getElem?_of_mem
        (show ∀ e ∈ absentTable 6, ¬ resident e by decide) j e hje)
      (by decide) (by decide) (by decide) (by decide) (by decide) (by decide)
      (by
        intro i hi
        have hi12 : i < 12 := hi
        interval_cases i <;> exact ⟨_, rfl, by decide, by decide⟩)
  exact ⟨h1, h2, h3, ⟨s1, v1⟩, ⟨s2, v2⟩, ⟨s3, v3⟩⟩

/-! ## C12: a reference string without repeats -/

/-- C12: for every reference string of `reference_cnt ≥ 0` references with no
repeated page number, all valid indices below `table_cnt`, run against a table
none of whose first `table_cnt` entries is resident and a pool of at least one
frame (both counts within the arrays and their capacities, `reference_cnt` an
`int`), each of `count_page_faults_fifo`, `count_page_faults_lru` and
`count_page_faults_lfu` returns exactly `reference_cnt`. -/
theorem no_repeat_all_faults (TABLEMAX POOLMAX : Nat) (page_table : List PTE)
    (table_cnt : Int) (refs : List Int) (reference_cnt : Int) (frame_pool : List Int)
    (frame_cnt : Int)
    (hnone : ∀ (j : Nat) (e : PTE), j < table_cnt.toNat → page_table[j]? = some e →
      ¬ resident e)
    (hfc1 : 1 ≤ frame_cnt) (hfm : frame_cnt.toNat ≤ POOLMAX)
    (htm : table_cnt.toNat ≤ TABLEMAX)
    (htc : table_cnt.toNat ≤ page_table.length) (hfc : frame_cnt.toNat ≤ frame_pool.length)
    (hrc0 : 0 ≤ reference_cnt) (hrc : reference_cnt ≤ INT_MAX)
    (hrefs : ∀ i, i < reference_cnt.toNat →
      ∃ p, refs[i]? = some p ∧ 0 ≤ p ∧ p < table_cnt)
    (hnd : (refs.take reference_cnt.toNat).Nodup) :
    (∃ t' f', count_page_faults_fifo TABLEMAX POOLMAX page_table table_cnt refs
        reference_cnt frame_pool frame_cnt = Except.ok (reference_cnt, t', f')) ∧
    (∃ t' f', count_page_faults_lru TABLEMAX POOLMAX page_table table_cnt refs
        reference_cnt frame_pool frame_cnt = Except.ok (reference_cnt, t', f')) ∧
    (∃ t' f', count_page_faults_lfu POOLMAX page_table table_cnt refs
        reference_cnt frame_pool frame_cnt = Except.ok (reference_cnt, t', f')) := by
  have hR : (reference_cnt.toNat : Int) ≤ INT_MAX := by
    unfold INT_MAX at hrc ⊢
    omega
  have hcast : (reference_cnt.toNat : Int) = reference_cnt := by omega
  obtain ⟨k, hcopy⟩ := copies_done TABLEMAX POOLMAX page_table table_cnt frame_pool
    frame_cnt htc htm hfc hfm
  have hlocal := runInv_localCopy page_table table_cnt frame_pool frame_cnt hnone hfc1 htc hfc
  have hcaller := runInv_callerStart page_table table_cnt frame_pool frame_cnt hnone hfc1
    htc hfc
  refine ⟨?_, ?_, ?_⟩
  · obtain ⟨⟨s, hs, hcount⟩, -⟩ := driver_run fifo_scan fifo_scan_sound fifo_scan_complete
      memLocal refs (fifo_loop_body refs frame_cnt) (fifo_stepSpec refs frame_cnt)
      (simOf page_table frame_pool (localCopy page_table table_cnt frame_pool frame_cnt)
        k 0 1) rfl rfl frame_cnt _ table_cnt hfc1 hlocal reference_cnt.toNat hR hrefs
    refine ⟨s.page_table, s.frame_pool, ?_⟩
    rw [fifo_driver_of_loop TABLEMAX POOLMAX page_table table_cnt refs
      reference_cnt frame_pool frame_cnt _ s hcopy hs, hcount hnd, hcast]
  · obtain ⟨⟨s, hs, hcount⟩, -⟩ := driver_run lru_scan lru_scan_sound lru_scan_complete
      memLocal refs (lru_loop_body refs frame_cnt)
      (stepSpec_of_callSpec (lru_callSpec refs frame_cnt))
      (simOf page_table frame_pool (localCopy page_table table_cnt frame_pool frame_cnt)
        k 0 1) rfl rfl frame_cnt _ table_cnt hfc1 hlocal reference_cnt.toNat hR hrefs
    refine ⟨s.page_table, s.frame_pool, ?_⟩
    rw [lru_driver_of_loop TABLEMAX POOLMAX page_table table_cnt refs
      reference_cnt frame_pool frame_cnt _ s hcopy hs, hcount hnd, hcast]
  · have hpool := lfu_pool_copied POOLMAX page_table table_cnt frame_pool frame_cnt hfc hfm
    obtain ⟨⟨s, hs, hcount⟩, -⟩ := driver_run lfu_scan lfu_scan_sound lfu_scan_complete
      memCaller refs (lfu_loop_body refs) (stepSpec_of_callSpec (lfu_callSpec refs))
      (simOfCaller frame_pool (callerStart page_table table_cnt frame_pool frame_cnt) 0 1)
      rfl rfl frame_cnt _ table_cnt hfc1 hcaller reference_cnt.toNat hR hrefs
    refine ⟨s.page_table, s.frame_pool, ?_⟩
    rw [lfu_driver_of_loop POOLMAX page_table table_cnt refs
      reference_cnt frame_pool frame_cnt _ s hpool hs, hcount hnd, hcast]

/-- Instance of `no_repeat_all_faults`: the references 1, 2, 3, 4 on six absent
pages with 2 frames give 4 faults under every policy. -/
theorem no_repeat_all_faults_witness :
    (∃ t' f', count_page_faults_fifo 6 4 (absentTable 6) 6 [1, 2, 3, 4] 4 [10, 11] 2 =
      Except.ok (4, t', f')) ∧
    (∃ t' f', count_page_faults_lru 6 4 (absentTable 6) 6 [1, 2, 3, 4] 4 [10, 11] 2 =
      Except.ok (4, t', f')) ∧
    (∃ t' f', count_page_faults_lfu 4 (absentTable 6) 6 [1, 2, 3, 4] 4 [10, 11] 2 =
      Except.ok (4, t', f')) :=
  no_repeat_all_faults 6 4 (absentTable 6) 6 [1, 2, 3, 4] 4 [10, 11] 2
    (fun j e _ hje => forall_getElem?_of_mem
      (show ∀ e ∈ absentTable 6, ¬ resident e by decide) j e hje)
    (by decide) (by decide) (by decide) (by decide) (by decide) (by decide) (by decide)
    (by
      intro i hi
      have hi4 : i < 4 := hi
      interval_cases i <;> exact ⟨_, rfl, by decide, by decide⟩)
    (by decide)

end VirtualMemory
